import Mathlib

/-!
Verification of the hierarchical rejection aggregator of
`rejection_analysis/rejection_analysis/api.py`
(`normalize_defect_type`, `_get_unified_rejection_data`'s lot-splitting SQL
expressions, and `_get_product_grouped_pivot_data`).

Embedding conventions:
* Python strings are Lean `String`; Python `None` for an optional string field
  is `Option.none`.  String primitives (substring test, upper-casing,
  stripping, splitting) are implemented by structural recursion on the
  character list so that concrete instances evaluate by kernel reduction.
* Numeric quantities (`inspected_qty`, `rejected_qty`, `rejection_cost`,
  defect quantities) are embedded as exact rationals `ℚ`.  The Python code
  carries them as floats via `frappe.utils.flt`; the claims under study are
  about the aggregation structure, which this exact-arithmetic embedding
  captures.  IEEE rounding of individual float additions is outside the model.
* Python dictionaries are insertion-ordered association lists
  `List (String × α)`: assignment to an existing key updates the value in
  place, assignment to a fresh key appends at the end, and iteration follows
  that order — exactly Python 3.7+ dict semantics.
-/

/-- Does `needle` occur as a contiguous sublist of `hay`?  (Python's
substring test `needle in hay`; `"" in s` is `True`.) -/
def occursIn (needle : List Char) : List Char → Bool
  | [] => needle.isEmpty
  | c :: rest => needle.isPrefixOf (c :: rest) || occursIn needle rest

/-- Python's substring test `needle in hay` for strings. -/
def strContains (hay needle : String) : Bool :=
  occursIn needle.data hay.data

/-- Python's `str.endswith`. -/
def strEndsWith (hay needle : String) : Bool :=
  needle.data.isSuffixOf hay.data

/-- ASCII upper-casing of one character (Python `str.upper` restricted to the
ASCII labels this data carries). -/
def pyUpperChar (c : Char) : Char :=
  if 'a' ≤ c ∧ c ≤ 'z' then Char.ofNat (c.toNat - 32) else c

/-- Python whitespace stripped by `str.strip()`. -/
def isPyWs (c : Char) : Bool :=
  c = ' ' || c = '\t' || c = '\n' || c = '\r' || c = '\x0b' || c = '\x0c'

/-- Strip leading and trailing whitespace from a character list. -/
def pyStrip (l : List Char) : List Char :=
  ((l.dropWhile isPyWs).reverse.dropWhile isPyWs).reverse

/-- `s.upper().strip()` as applied by `normalize_defect_type`. -/
def pyUpperStrip (s : String) : String :=
  ⟨pyStrip (s.data.map pyUpperChar)⟩

/- ----------------------------------------------------------------------
`normalize_defect_type` (api.py lines 2789-2874).

Each `if` of the Python chain becomes a named boolean rule over the
upper-cased, stripped label; `normalize_defect_type` tries them in the
source order and falls through to `"OTH"`.
---------------------------------------------------------------------- -/

def ruleDT (u : String) : Bool :=
  strContains u "DEFECT" && !(strContains u "SURFACE" || strContains u "STAIN")

def ruleBD (u : String) : Bool := strContains u "BEND" || strContains u "BD"

def ruleBK (u : String) : Bool := strContains u "BACKRIND" || strContains u "BK"

def ruleBL (u : String) : Bool :=
  (strContains u "BLISTER" || strContains u "BL") && !strContains u "BUBBLE"

def ruleBM (u : String) : Bool := strContains u "BLACK MARK" || strContains u "BM"

def ruleBN (u : String) : Bool := strContains u "BUNE" || strContains u "BN"

def ruleBO (u : String) : Bool :=
  strContains u "BONDING" || strContains u "BOND" || strContains u "BO"

def ruleBU (u : String) : Bool := strContains u "BUBBLE" || strContains u "BU"

def ruleCM (u : String) : Bool := strContains u "CUT MARK" || strContains u "CM"

def ruleCV (u : String) : Bool :=
  strContains u "COLOUR VARIATION" || strContains u "CV"

def ruleDF (u : String) : Bool := strContains u "DEFLASH" || strContains u "DF"

def ruleDP (u : String) : Bool := strContains u "DIPRESSION" || strContains u "DP"

def ruleF (u : String) : Bool :=
  strContains u "FLOW" || strContains u "FL" || strContains u " F " ||
    strEndsWith u " F"

def ruleFP (u : String) : Bool :=
  strContains u "FOREIGN PARTICLE" || strContains u "FP"

def ruleSD (u : String) : Bool :=
  strContains u "STAIN" || strContains u "SURFACE DEFECT" || strContains u "SD"

def ruleSH (u : String) : Bool :=
  strContains u "CELL" || strContains u "SHELL" || strContains u "DAMAGE" ||
    strContains u "SH"

def ruleT (u : String) : Bool :=
  strContains u "BURST" || strContains u "TEAR" || strContains u " T " ||
    u = "T"

def ruleTM (u : String) : Bool := strContains u "TOOL MARK" || strContains u "TM"

def ruleUF (u : String) : Bool := strContains u "UNDER FILL" || strContains u "UF"

/-- The keyword groups of `normalize_defect_type`, in source order, each
paired with the short code its branch returns.  The Python function is a
chain of `if ...: return code` statements; the chain is exactly a
first-match scan of this ordered list. -/
def defectRules : List ((String → Bool) × String) :=
  [(ruleDT, "DT"), (ruleBD, "BD"), (ruleBK, "BK"), (ruleBL, "BL"),
   (ruleBM, "BM"), (ruleBN, "BN"), (ruleBO, "BO"), (ruleBU, "BU"),
   (ruleCM, "CM"), (ruleCV, "CV"), (ruleDF, "DF"), (ruleDP, "DP"),
   (ruleF, "F"), (ruleFP, "FP"), (ruleSD, "SD"), (ruleSH, "SH"),
   (ruleT, "T"), (ruleTM, "TM"), (ruleUF, "UF")]

/-- The code of the first rule that matches `u`, if any. -/
def firstMatch : List ((String → Bool) × String) → String → Option String
  | [], _ => none
  | (p, c) :: rest, u => if p u then some c else firstMatch rest u

/-- `normalize_defect_type` from api.py: a `None` or empty label is falsy in
Python (`if not defect_type: return "OTH"`); otherwise the label is
upper-cased and stripped and matched against the keyword rules in source
order, the first match winning; no match falls through to `"OTH"`. -/
def normalize_defect_type : Option String → String
  | none => "OTH"
  | some s =>
    if s = "" then "OTH"
    else (firstMatch defectRules (pyUpperStrip s)).getD "OTH"

/-- The fixed catalog of short codes `normalize_defect_type` can return. -/
def defectCatalog : List String :=
  ["DT", "BD", "BK", "BL", "BM", "BN", "BO", "BU", "CM", "CV", "DF", "DP",
   "F", "FP", "SD", "SH", "T", "TM", "UF", "OTH"]

/- ----------------------------------------------------------------------
Model of Python `float(str)` / `frappe.utils.flt`.
---------------------------------------------------------------------- -/

/-- ASCII decimal digit test. -/
def isDigitCh (c : Char) : Bool := '0' ≤ c && c ≤ '9'

/-- Value of a digit string. -/
def digitsToNat (l : List Char) : ℕ :=
  l.foldl (fun n c => 10 * n + (c.toNat - 48)) 0

/-- Split a character list at every character satisfying `p`
(keeping empty pieces, like Python `str.split(sep)`). -/
def splitOnCharP (p : Char → Bool) : List Char → List (List Char)
  | [] => [[]]
  | c :: r =>
    if p c then [] :: splitOnCharP p r
    else
      match splitOnCharP p r with
      | [] => [[c]]
      | h :: t => (c :: h) :: t

/-- Strip an optional leading sign; returns (isNegative, rest). -/
def parseSign : List Char → Bool × List Char
  | '+' :: r => (false, r)
  | '-' :: r => (true, r)
  | l => (false, l)

/-- Unsigned decimal `ip.fp` where both parts are digit strings and at least
one is non-empty. -/
def parseUDec (ip fp : List Char) : Option ℚ :=
  if ip.all isDigitCh && fp.all isDigitCh && decide (0 < ip.length + fp.length)
  then some ((digitsToNat ip : ℚ) + (digitsToNat fp : ℚ) / (10 : ℚ) ^ fp.length)
  else none

/-- Unsigned mantissa: digits with at most one decimal point. -/
def parseMant (l : List Char) : Option ℚ :=
  match splitOnCharP (· = '.') l with
  | [ip] => parseUDec ip []
  | [ip, fp] => parseUDec ip fp
  | _ => none

/-- Exponent part after `e`/`E`: optional sign then a non-empty digit string. -/
def parseExp (l : List Char) : Option ℤ :=
  let (neg, r) := parseSign l
  if !r.isEmpty && r.all isDigitCh then
    some (if neg then -(digitsToNat r : ℤ) else (digitsToNat r : ℤ))
  else none

/-- Signed decimal literal with optional exponent. -/
def pyFloatCore (l : List Char) : Option ℚ :=
  let (neg, r) := parseSign l
  let mag : Option ℚ :=
    match splitOnCharP (fun c => c = 'e' || c = 'E') r with
    | [m] => parseMant m
    | [m, e] =>
      match parseMant m, parseExp e with
      | some mv, some ev =>
        some (mv * (if 0 ≤ ev then (10 : ℚ) ^ ev.toNat else 1 / (10 : ℚ) ^ (-ev).toNat))
      | _, _ => none
    | _ => none
  mag.map (fun q => if neg then -q else q)

/-- Model of Python `float(str)` on decimal literals (surrounding whitespace
allowed).  `inf`/`nan` literals and digit-group underscores are not
representable in this exact-rational embedding; they do not occur in the
inspection data under study and are treated as unparseable. -/
def pyFloatOfStr (s : String) : Option ℚ :=
  pyFloatCore (pyStrip s.data)

/-- `frappe.utils.flt` applied to a string: commas are removed, then
`float()` is tried; any parse failure yields 0.  (`flt` is framework code
outside this repository, modelled from its documented behaviour.) -/
def flt_str (s : String) : ℚ :=
  (pyFloatOfStr ⟨s.data.filter (· ≠ ',')⟩).getD 0

/- ----------------------------------------------------------------------
Lot splitting (`_get_unified_rejection_data`, api.py lines 2941-2942 and
2963-2972).  The SQL computes, per record,
  sublot_number = SUBSTRING_INDEX(lot_no, d, -1)  (part after the LAST d)
  main_lot      = SUBSTRING_INDEX(lot_no, d, 1)   (part before the FIRST d)
guarded by `lot_no LIKE '%d%'`; the Inspection Entry query tries d = '-'
then d = '/', the SPP query only d = '-'; with no delimiter the row gets
main_lot = lot_no and sublot_number = '1'.
---------------------------------------------------------------------- -/

/-- Part of `l` before the first occurrence of `d` (MySQL
`SUBSTRING_INDEX(l, d, 1)` when `d` occurs in `l`). -/
def beforeFirstChar (d : Char) (l : List Char) : List Char :=
  l.takeWhile (· ≠ d)

/-- Part of `l` after the last occurrence of `d` (MySQL
`SUBSTRING_INDEX(l, d, -1)` when `d` occurs in `l`). -/
def afterLastChar (d : Char) (l : List Char) : List Char :=
  (l.reverse.takeWhile (· ≠ d)).reverse

/-- `main_lot` of the Inspection Entry query (api.py lines 2968-2972). -/
def ie_main_lot (lot : String) : String :=
  if lot.data.contains '-' then ⟨beforeFirstChar '-' lot.data⟩
  else if lot.data.contains '/' then ⟨beforeFirstChar '/' lot.data⟩
  else lot

/-- `sublot_number` of the Inspection Entry query (api.py lines 2963-2967). -/
def ie_sublot_number (lot : String) : String :=
  if lot.data.contains '-' then ⟨afterLastChar '-' lot.data⟩
  else if lot.data.contains '/' then ⟨afterLastChar '/' lot.data⟩
  else "1"

/-- `main_lot` of the SPP query (api.py line 2942): only `-` is tried. -/
def spp_main_lot (lot : String) : String :=
  if lot.data.contains '-' then ⟨beforeFirstChar '-' lot.data⟩ else lot

/-- `sublot_number` of the SPP query (api.py line 2941): only `-` is tried. -/
def spp_sublot_number (lot : String) : String :=
  if lot.data.contains '-' then ⟨afterLastChar '-' lot.data⟩ else "1"

/-- Part of `l` strictly after the first occurrence of `d`. -/
def afterFirstChar (d : Char) (l : List Char) : List Char :=
  (l.dropWhile (· ≠ d)).drop 1

/-- The sub-lot as the SPEC's sentence words it ("splitting lot_no on the
first `-` (or `/` if no `-` present) ... sub_lot_number the part after it"):
the part after the FIRST delimiter.  Kept for comparison with the source's
`ie_sublot_number`. -/
def spec_sublot_number (lot : String) : String :=
  if lot.data.contains '-' then ⟨afterFirstChar '-' lot.data⟩
  else if lot.data.contains '/' then ⟨afterFirstChar '/' lot.data⟩
  else "1"

/- ----------------------------------------------------------------------
`_get_product_grouped_pivot_data` (api.py lines 3028-3155).
---------------------------------------------------------------------- -/

/-- One row of the unified query result fed to
`_get_product_grouped_pivot_data`.  `item_code` and `main_lot` are optional
because the SQL can yield NULL; an empty string is likewise falsy in the
Python `or 'Unknown'` idiom, so both shapes are kept.  `sublot_number` is the
string the SQL produced (Python wraps it in `str(...)`, the identity here).
Numeric fields are the exact rationals behind the floats; `flt` applied to a
number is the identity. -/
structure Record where
  source_type : String
  inspection_type : String
  document_name : String
  lot_no : String
  item_code : Option String
  posting_date : String
  inspector_code : String
  inspected_qty : ℚ
  rejected_qty : ℚ
  sublot_number : String
  main_lot : Option String
  defect_details : Option String
  rejection_cost : ℚ

/-- `row.get(k) or 'Unknown'`: both a missing/NULL value and an empty string
are falsy in Python and fall back to the literal `'Unknown'`. -/
def orUnknown : Option String → String
  | none => "Unknown"
  | some s => if s = "" then "Unknown" else s

/-- `product = row.get('item_code') or 'Unknown'` (api.py line 3033). -/
def productKey (r : Record) : String := orUnknown r.item_code

/-- `main_lot = row.get('main_lot') or 'Unknown'` (api.py line 3034). -/
def mainLotKey (r : Record) : String := orUnknown r.main_lot

/-- `sublot_key = f"{main_lot}_{sublot}"` (api.py line 3045). -/
def sublotKey (r : Record) : String := mainLotKey r ++ "_" ++ r.sublot_number

/-- Python `str.split(sep)` for a multi-character separator, by fuel-bounded
structural recursion (the fuel is the haystack length, always sufficient for
a non-empty separator). -/
def splitOnSepFuel (sep : List Char) : ℕ → List Char → List Char → List (List Char)
  | 0, hay, acc => [acc.reverse ++ hay]
  | n + 1, hay, acc =>
    match hay with
    | [] => [acc.reverse]
    | c :: rest =>
      if sep.isPrefixOf (c :: rest) then
        acc.reverse :: splitOnSepFuel sep n (List.drop sep.length (c :: rest)) []
      else splitOnSepFuel sep n rest (c :: acc)

/-- Python `s.split(sep)` (all pieces, empty pieces kept). -/
def pySplit (s sep : String) : List String :=
  (splitOnSepFuel sep.data s.data.length s.data []).map (fun l => ⟨l⟩)

/-- Processing of one `defect_details` chunk (api.py lines 3081-3091): a
chunk without `':'` is not processed at all; otherwise the part before the
first `':'` is the defect label (normalized) and the part after it is the
quantity put through `flt` (0 when unparseable).  `flt` and
`normalize_defect_type` are total, so the Python `except: continue` guard
around this block is unreachable. -/
def chunkPair (chunk : String) : Option (String × ℚ) :=
  if chunk.data.contains ':' then
    some (normalize_defect_type (some ⟨chunk.data.takeWhile (· ≠ ':')⟩),
          flt_str ⟨(chunk.data.dropWhile (· ≠ ':')).drop 1⟩)
  else none

/-- The processed `(code, qty)` pairs of a list of chunks. -/
def chunkPairs (chunks : List String) : List (String × ℚ) :=
  chunks.filterMap chunkPair

/-- All processed `(code, qty)` pairs of a record's `defect_details`
(api.py lines 3078-3091); `None` and `''` are falsy and yield nothing. -/
def parsedPairs : Option String → List (String × ℚ)
  | none => []
  | some s => if s = "" then [] else chunkPairs (pySplit s "; ")

/-- Ordered-dictionary lookup. -/
def aget {α : Type} : List (String × α) → String → Option α
  | [], _ => none
  | (k, v) :: rest, key => if k = key then some v else aget rest key

/-- `d[k] = d.get(k, 0) + v`: update in place, or append a fresh key. -/
def bump : List (String × ℚ) → String → ℚ → List (String × ℚ)
  | [], k, v => [(k, v)]
  | (k0, v0) :: rest, k, v =>
    if k0 = k then (k0, v0 + v) :: rest else (k0, v0) :: bump rest k v

/-- Fold `bump` over a pair list (the per-record defect loop at one node). -/
def bumpAll (d : List (String × ℚ)) (pairs : List (String × ℚ)) : List (String × ℚ) :=
  pairs.foldl (fun acc p => bump acc p.1 p.2) d

/-- `if k not in d: d[k] = dflt` followed by a mutation of `d[k]`. -/
def upsert {α : Type} : List (String × α) → String → α → (α → α) → List (String × α)
  | [], k, dflt, f => [(k, f dflt)]
  | (k0, v0) :: rest, k, dflt, f =>
    if k0 = k then (k0, f v0) :: rest else (k0, v0) :: upsert rest k dflt f

/-- The per-sub-lot dictionary (api.py lines 3047-3058). -/
structure SubLotData where
  lot_no : String
  inspected_qty : ℚ
  rejected_qty : ℚ
  rejection_cost : ℚ
  defects : List (String × ℚ)
  posting_date : String
  inspector_code : String
  inspection_type : String
  document_name : String
  source_type : String

/-- The per-main-lot dictionary (api.py line 3042). -/
structure MainLotGroup where
  total_inspected : ℚ
  total_rejected : ℚ
  total_cost : ℚ
  sublots : List (String × SubLotData)
  defects : List (String × ℚ)

/-- The per-product dictionary (api.py line 3038). -/
structure ProductGroup where
  total_inspected : ℚ
  total_rejected : ℚ
  total_cost : ℚ
  main_lots : List (String × MainLotGroup)
  defects : List (String × ℚ)

/-- A freshly created sub-lot dictionary: zero quantities and the metadata
of the record that caused its creation (api.py lines 3047-3058). -/
def initSubLot (r : Record) : SubLotData :=
  { lot_no := r.lot_no, inspected_qty := 0, rejected_qty := 0,
    rejection_cost := 0, defects := [], posting_date := r.posting_date,
    inspector_code := r.inspector_code, inspection_type := r.inspection_type,
    document_name := r.document_name, source_type := r.source_type }

def emptyMainLot : MainLotGroup :=
  { total_inspected := 0, total_rejected := 0, total_cost := 0,
    sublots := [], defects := [] }

def emptyProduct : ProductGroup :=
  { total_inspected := 0, total_rejected := 0, total_cost := 0,
    main_lots := [], defects := [] }

/-- Net effect of one record on its sub-lot dictionary
(api.py lines 3064-3068 and 3088). -/
def addToSubLot (r : Record) (s : SubLotData) : SubLotData :=
  { s with
    inspected_qty := s.inspected_qty + r.inspected_qty,
    rejected_qty := s.rejected_qty + r.rejected_qty,
    rejection_cost := s.rejection_cost + r.rejection_cost,
    defects := bumpAll s.defects (parsedPairs r.defect_details) }

/-- Net effect of one record on its main-lot group
(api.py lines 3069, 3072-3073, 3089 and the sub-lot upsert of 3046-3058). -/
def addToMainLot (r : Record) (m : MainLotGroup) : MainLotGroup :=
  { total_inspected := m.total_inspected + r.inspected_qty,
    total_rejected := m.total_rejected + r.rejected_qty,
    total_cost := m.total_cost + r.rejection_cost,
    sublots := upsert m.sublots (sublotKey r) (initSubLot r) (addToSubLot r),
    defects := bumpAll m.defects (parsedPairs r.defect_details) }

/-- Net effect of one record on its product group
(api.py lines 3070, 3074-3075, 3090 and the main-lot upsert of 3041-3042). -/
def addToProduct (r : Record) (p : ProductGroup) : ProductGroup :=
  { total_inspected := p.total_inspected + r.inspected_qty,
    total_rejected := p.total_rejected + r.rejected_qty,
    total_cost := p.total_cost + r.rejection_cost,
    main_lots := upsert p.main_lots (mainLotKey r) emptyMainLot (addToMainLot r),
    defects := bumpAll p.defects (parsedPairs r.defect_details) }

/-- `all_normalized_defects.add(c)`, on an insertion-ordered distinct list
(the Python set is only ever read through `sorted(...)`, so insertion order
is irrelevant after the final sort). -/
def addCode (l : List String) (c : String) : List String :=
  if l.contains c then l else l ++ [c]

/-- Add every processed pair's code to the global code collection. -/
def addCodes (l : List String) (pairs : List (String × ℚ)) : List String :=
  pairs.foldl (fun acc p => addCode acc p.1) l

/-- The mutable state of the grouping loop: `product_groups` and
`all_normalized_defects`. -/
structure PivotState where
  groups : List (String × ProductGroup)
  codes : List String

/-- One iteration of the `for row in data` loop (api.py lines 3032-3091). -/
def processRecord (st : PivotState) (r : Record) : PivotState :=
  { groups := upsert st.groups (productKey r) emptyProduct (addToProduct r),
    codes := addCodes st.codes (parsedPairs r.defect_details) }

/-- The grouping loop over the whole input. -/
def buildState (data : List Record) : PivotState :=
  data.foldl processRecord { groups := [], codes := [] }

/-- Round half to even to an integer (Python 3 `round`'s tie rule), on the
exact rational embedding of the float arithmetic. -/
def roundHalfEven (q : ℚ) : ℤ :=
  if q - ⌊q⌋ < 1/2 then ⌊q⌋
  else if 1/2 < q - ⌊q⌋ then ⌊q⌋ + 1
  else if ⌊q⌋ % 2 = 0 then ⌊q⌋ else ⌊q⌋ + 1

/-- Python `round(x, 2)` on the exact rational embedding. -/
def pyRound2 (q : ℚ) : ℚ := (roundHalfEven (q * 100) : ℚ) / 100

/-- The `rate` expression used at every level of the flatten step:
`round(rejected/inspected*100, 2) if inspected > 0 else 0`
(api.py lines 3106, 3122, 3139). -/
def rateOf (rejected inspected : ℚ) : ℚ :=
  if 0 < inspected then pyRound2 (rejected / inspected * 100) else 0

/-- One flattened output row (api.py lines 3098-3144).  Keys present only on
some row types are `Option`s (`none` = key absent from the Python dict).
The Python `**defects` spread merges the node's defect map into the flat
dict; it is kept as the explicit `defects` field (the short defect codes
never collide with the fixed row keys). -/
structure Row where
  id : String
  parentId : Option String
  type : String
  product_code : String
  main_lot : Option String
  lot_no : Option String
  label : String
  inspected : ℚ
  rejected : ℚ
  rejection_cost : ℚ
  rate : ℚ
  inspector : Option String
  inspection_type : Option String
  date : Option String
  defects : List (String × ℚ)

/-- The product row (api.py lines 3098-3108). -/
def productRow (product : String) (p : ProductGroup) : Row :=
  { id := "p_" ++ product, parentId := none, type := "product",
    product_code := product, main_lot := none, lot_no := none,
    label := product, inspected := p.total_inspected,
    rejected := p.total_rejected, rejection_cost := p.total_cost,
    rate := rateOf p.total_rejected p.total_inspected,
    inspector := none, inspection_type := none, date := none,
    defects := p.defects }

/-- The main-lot row (api.py lines 3112-3124). -/
def mainLotRow (product ml : String) (m : MainLotGroup) : Row :=
  { id := "ml_" ++ product ++ "_" ++ ml, parentId := some ("p_" ++ product),
    type := "main_lot", product_code := product, main_lot := some ml,
    lot_no := none, label := ml, inspected := m.total_inspected,
    rejected := m.total_rejected, rejection_cost := m.total_cost,
    rate := rateOf m.total_rejected m.total_inspected,
    inspector := none, inspection_type := none, date := none,
    defects := m.defects }

/-- The sub-lot row (api.py lines 3128-3144). -/
def subLotRow (product ml sl_id : String) (s : SubLotData) : Row :=
  { id := "sl_" ++ product ++ "_" ++ sl_id,
    parentId := some ("ml_" ++ product ++ "_" ++ ml), type := "sublot",
    product_code := product, main_lot := some ml, lot_no := some s.lot_no,
    label := s.lot_no, inspected := s.inspected_qty,
    rejected := s.rejected_qty, rejection_cost := s.rejection_cost,
    rate := rateOf s.rejected_qty s.inspected_qty,
    inspector := some s.inspector_code,
    inspection_type := some s.inspection_type,
    date := some s.posting_date, defects := s.defects }

/-- The flatten loops (api.py lines 3097-3145): products in insertion order,
each followed by its main lots, each followed by its sub-lots. -/
def flattenRows (groups : List (String × ProductGroup)) : List Row :=
  groups.flatMap fun pp =>
    productRow pp.1 pp.2 ::
      pp.2.main_lots.flatMap fun mm =>
        mainLotRow pp.1 mm.1 mm.2 ::
          mm.2.sublots.map fun ss => subLotRow pp.1 mm.1 ss.1 ss.2

/-- Insert into an ascending list (helper for `sortStrings`). -/
def insertSorted (x : String) : List String → List String
  | [] => [x]
  | y :: rest => if x ≤ y then x :: y :: rest else y :: insertSorted x rest

/-- Python `sorted(...)` on strings (lexicographic by code point), as a
structurally recursive insertion sort. -/
def sortStrings (l : List String) : List String :=
  l.foldr insertSorted []

/-- The value returned by `_get_product_grouped_pivot_data`
(api.py lines 3147-3155); the `summary` sub-dict is flattened into the three
`summary_` fields. -/
structure PivotOut where
  rows : List Row
  defect_columns : List String
  summary_total_products : ℕ
  summary_total_inspected : ℚ
  summary_total_rejected : ℚ

/-- `_get_product_grouped_pivot_data(data)` end to end. -/
def get_product_grouped_pivot_data (data : List Record) : PivotOut :=
  let st := buildState data
  { rows := flattenRows st.groups,
    defect_columns := sortStrings st.codes,
    summary_total_products := st.groups.length,
    summary_total_inspected := (st.groups.map (fun p => p.2.total_inspected)).sum,
    summary_total_rejected := (st.groups.map (fun p => p.2.total_rejected)).sum }

/-- Does any keyword rule of `normalize_defect_type` match? -/
def anyRuleMatches (u : String) : Bool :=
  defectRules.any (fun pc => pc.1 u)

/- ----------------------------------------------------------------------
Derived notions used by the verification (sums of a field over an
association list, defect-count lookup, and per-record contributions).
---------------------------------------------------------------------- -/

/-- Sum of `f` over the values of an association list. -/
def sumBy {α : Type} (d : List (String × α)) (f : α → ℚ) : ℚ :=
  (d.map (fun x => f x.2)).sum

/-- Defect count of code `c` in a defect map (`d.get(c, 0)`). -/
def lookupD (d : List (String × ℚ)) (c : String) : ℚ :=
  (aget d c).getD 0

/-- Total quantity contributed to code `c` by a list of `(code, qty)`
pairs. -/
def pairContrib (pairs : List (String × ℚ)) (c : String) : ℚ :=
  (pairs.map (fun p => if p.1 = c then p.2 else 0)).sum

/-- A record with its `defect_details` dropped (used to state that the
quantity/cost totals never depend on the defect details). -/
def eraseDetails (r : Record) : Record :=
  { r with defect_details := none }

/-- A main-lot node whose totals and per-code defect counts equal the sums
over its child sub-lot nodes. -/
def MEntryBalanced (md : MainLotGroup) : Prop :=
  md.total_inspected = sumBy md.sublots (fun s => s.inspected_qty) ∧
  md.total_rejected = sumBy md.sublots (fun s => s.rejected_qty) ∧
  md.total_cost = sumBy md.sublots (fun s => s.rejection_cost) ∧
  ∀ c, lookupD md.defects c = sumBy md.sublots (fun s => lookupD s.defects c)

/-- A product node whose totals and per-code defect counts equal the sums
over its child main-lot nodes, and whose main-lot nodes are themselves
balanced over their sub-lots. -/
def PEntryBalanced (pd : ProductGroup) : Prop :=
  (pd.total_inspected = sumBy pd.main_lots (fun m => m.total_inspected) ∧
   pd.total_rejected = sumBy pd.main_lots (fun m => m.total_rejected) ∧
   pd.total_cost = sumBy pd.main_lots (fun m => m.total_cost) ∧
   ∀ c, lookupD pd.defects c = sumBy pd.main_lots (fun m => lookupD m.defects c)) ∧
  ∀ km md, aget pd.main_lots km = some md → MEntryBalanced md

/-- The roll-up well-formedness of the grouping tree. -/
def RollupBalanced (groups : List (String × ProductGroup)) : Prop :=
  ∀ kp pd, aget groups kp = some pd → PEntryBalanced pd

/-- The records of `data` that are merged into the sub-lot entry reached by
product key `kp`, main-lot key `km` and sub-lot dictionary key `ks`. -/
def matchingRecs (data : List Record) (kp km ks : String) : List Record :=
  data.filter (fun r => productKey r = kp ∧ mainLotKey r = km ∧ sublotKey r = ks)

/-- The sub-lot-tracking invariant: every sub-lot entry's quantities are the
sums over the records merged into it, its defect counts are the summed
per-record contributions, and its metadata is that of the first such record
in input order. -/
def SubTracked (data : List Record) (groups : List (String × ProductGroup)) : Prop :=
  ∀ kp pd, aget groups kp = some pd →
  ∀ km md, aget pd.main_lots km = some md →
  ∀ ks sd, aget md.sublots ks = some sd →
    matchingRecs data kp km ks ≠ [] ∧
    sd.inspected_qty = ((matchingRecs data kp km ks).map (fun r => r.inspected_qty)).sum ∧
    sd.rejected_qty = ((matchingRecs data kp km ks).map (fun r => r.rejected_qty)).sum ∧
    sd.rejection_cost = ((matchingRecs data kp km ks).map (fun r => r.rejection_cost)).sum ∧
    (∀ c, lookupD sd.defects c =
      ((matchingRecs data kp km ks).map
        (fun r => pairContrib (parsedPairs r.defect_details) c)).sum) ∧
    ∀ r0, (matchingRecs data kp km ks).head? = some r0 →
      sd.lot_no = r0.lot_no ∧ sd.posting_date = r0.posting_date ∧
      sd.inspector_code = r0.inspector_code ∧
      sd.inspection_type = r0.inspection_type ∧
      sd.document_name = r0.document_name ∧ sd.source_type = r0.source_type

/-- Converse reachability: every record of `data` has a sub-lot entry at
its grouping keys. -/
def SubComplete (data : List Record) (groups : List (String × ProductGroup)) : Prop :=
  ∀ r0 ∈ data, ∃ pd md sd,
    aget groups (productKey r0) = some pd ∧
    aget pd.main_lots (mainLotKey r0) = some md ∧
    aget md.sublots (sublotKey r0) = some sd

/-- A defect map whose keys are distinct and all drawn from `codes`. -/
def DefCov (codes : List String) (d : List (String × ℚ)) : Prop :=
  (d.map Prod.fst).Nodup ∧ ∀ ck ∈ d.map Prod.fst, ck ∈ codes

/-- Code-coverage invariant: at every node of the grouping tree the defect
map's keys are distinct and all of them are in the collected code set. -/
def CodesCovered (st : PivotState) : Prop :=
  ∀ pp ∈ st.groups, DefCov st.codes pp.2.defects ∧
    ∀ mm ∈ pp.2.main_lots, DefCov st.codes mm.2.defects ∧
      ∀ ss ∈ mm.2.sublots, DefCov st.codes ss.2.defects

/- ----------------------------------------------------------------------
Concrete inputs used by witnesses and counterexamples.
---------------------------------------------------------------------- -/

/-- The spec's round-trip scenario record: product `"T100"`,
`lot_no "25A01U01-2"`, 100 inspected, 5 rejected, defect `Bend: 5`. -/
def wrec1 : Record :=
  { source_type := "SPP Inspection Entry",
    inspection_type := "Final Visual Inspection", document_name := "D1",
    lot_no := "25A01U01-2", item_code := some "T100",
    posting_date := "2025-01-01", inspector_code := "I1",
    inspected_qty := 100, rejected_qty := 5, sublot_number := "2",
    main_lot := some "25A01U01", defect_details := some "Bend:5",
    rejection_cost := 10 }

/-- A second record in the same product and main lot, different sub-lot,
with a different defect code (`Stain` normalizes to `SD`). -/
def wrec2 : Record :=
  { source_type := "Inspection Entry", inspection_type := "Line Inspection",
    document_name := "D2", lot_no := "25A01U01-3", item_code := some "T100",
    posting_date := "2025-01-02", inspector_code := "I2",
    inspected_qty := 50, rejected_qty := 2, sublot_number := "3",
    main_lot := some "25A01U01", defect_details := some "Stain:2",
    rejection_cost := 4 }

/-- A record of a different product whose only defect code is `SD`. -/
def wrec3 : Record :=
  { source_type := "Inspection Entry", inspection_type := "Incoming Inspection",
    document_name := "D3", lot_no := "LOT9", item_code := some "P2",
    posting_date := "2025-01-03", inspector_code := "I3",
    inspected_qty := 20, rejected_qty := 1, sublot_number := "1",
    main_lot := some "LOT9", defect_details := some "Stain:1",
    rejection_cost := 3 }

/-- A record with no product code and no main lot (both NULL). -/
def wrecUnknown : Record :=
  { source_type := "Inspection Entry", inspection_type := "Line Inspection",
    document_name := "D4", lot_no := "", item_code := none,
    posting_date := "2025-01-04", inspector_code := "I4",
    inspected_qty := 7, rejected_qty := 1, sublot_number := "1",
    main_lot := none, defect_details := none, rejection_cost := 1 }

/-- A record whose single defect pair has a non-numeric quantity. -/
def wrecBad : Record :=
  { source_type := "Inspection Entry", inspection_type := "Line Inspection",
    document_name := "D5", lot_no := "L1", item_code := some "P3",
    posting_date := "2025-01-05", inspector_code := "I5",
    inspected_qty := 10, rejected_qty := 2, sublot_number := "1",
    main_lot := some "L1", defect_details := some "Stain:abc",
    rejection_cost := 2 }

/-- A duplicate of `wrec1`'s grouping triple with different metadata and
quantities (exercises the sub-lot merge). -/
def wrec1b : Record :=
  { source_type := "Inspection Entry", inspection_type := "Lot Inspection",
    document_name := "D6", lot_no := "25A01U01-2-X", item_code := some "T100",
    posting_date := "2025-02-01", inspector_code := "I6",
    inspected_qty := 30, rejected_qty := 3, sublot_number := "2",
    main_lot := some "25A01U01", defect_details := some "Bend:1",
    rejection_cost := 6 }

/-- The sub-lot node produced by `[wrec1]`. -/
def wsub1 : SubLotData :=
  { lot_no := "25A01U01-2", inspected_qty := 100, rejected_qty := 5,
    rejection_cost := 10, defects := [("BD", 5)],
    posting_date := "2025-01-01", inspector_code := "I1",
    inspection_type := "Final Visual Inspection", document_name := "D1",
    source_type := "SPP Inspection Entry" }

/-- The main-lot node produced by `[wrec1]`. -/
def wmain1 : MainLotGroup :=
  { total_inspected := 100, total_rejected := 5, total_cost := 10,
    sublots := [("25A01U01_2", wsub1)], defects := [("BD", 5)] }

/-- The product node produced by `[wrec1]`. -/
def wprod1 : ProductGroup :=
  { total_inspected := 100, total_rejected := 5, total_cost := 10,
    main_lots := [("25A01U01", wmain1)], defects := [("BD", 5)] }

/-- The merged sub-lot node produced by `[wrec1, wrec1b]` (quantities
summed, metadata of the first record kept). -/
def wsubM : SubLotData :=
  { lot_no := "25A01U01-2", inspected_qty := 130, rejected_qty := 8,
    rejection_cost := 16, defects := [("BD", 6)],
    posting_date := "2025-01-01", inspector_code := "I1",
    inspection_type := "Final Visual Inspection", document_name := "D1",
    source_type := "SPP Inspection Entry" }

/-- The main-lot node produced by `[wrec1, wrec1b]`. -/
def wmainM : MainLotGroup :=
  { total_inspected := 130, total_rejected := 8, total_cost := 16,
    sublots := [("25A01U01_2", wsubM)], defects := [("BD", 6)] }

/-- The product node produced by `[wrec1, wrec1b]`. -/
def wprodM : ProductGroup :=
  { total_inspected := 130, total_rejected := 8, total_cost := 16,
    main_lots := [("25A01U01", wmainM)], defects := [("BD", 6)] }

/-- The sub-lot node produced by `[wrecBad]`: the non-numeric defect
quantity went through `flt` as 0, so the map carries `("SD", 0)`. -/
def wsubBad : SubLotData :=
  { lot_no := "L1", inspected_qty := 10, rejected_qty := 2,
    rejection_cost := 2, defects := [("SD", 0)],
    posting_date := "2025-01-05", inspector_code := "I5",
    inspection_type := "Line Inspection", document_name := "D5",
    source_type := "Inspection Entry" }

/-- The main-lot node produced by `[wrecBad]`. -/
def wmainBad : MainLotGroup :=
  { total_inspected := 10, total_rejected := 2, total_cost := 2,
    sublots := [("L1_1", wsubBad)], defects := [("SD", 0)] }

/-- The product node produced by `[wrecBad]`. -/
def wprodBad : ProductGroup :=
  { total_inspected := 10, total_rejected := 2, total_cost := 2,
    main_lots := [("L1", wmainBad)], defects := [("SD", 0)] }

/- ----------------------------------------------------------------------
Theorems.
---------------------------------------------------------------------- -/

/-- Decomposition at the first occurrence: if `d ∈ l` then `l` is its
`d`-free `takeWhile (· ≠ d)` part, then `d`, then a remainder. -/
theorem takeWhile_ne_decomp {d : Char} {l : List Char} (h : d ∈ l) :
    ∃ rest, l = l.takeWhile (· ≠ d) ++ d :: rest ∧
      d ∉ l.takeWhile (· ≠ d) := by
  induction l with
  | nil => cases h
  | cons c t ih =>
    by_cases hc : c = d
    · subst hc
      refine ⟨t, ?_, ?_⟩
      · simp [List.takeWhile]
      · simp [List.takeWhile]
    · have hd : d ∈ t := by
        cases List.mem_cons.mp h with
        | inl h1 => exact absurd h1.symm hc
        | inr h2 => exact h2
      obtain ⟨rest, hEq, hNot⟩ := ih hd
      refine ⟨rest, ?_, ?_⟩
      · have : (c :: t).takeWhile (· ≠ d) = c :: t.takeWhile (· ≠ d) := by
          simp [List.takeWhile, hc]
        rw [this, List.cons_append, ← hEq]
      · have : (c :: t).takeWhile (· ≠ d) = c :: t.takeWhile (· ≠ d) := by
          simp [List.takeWhile, hc]
        rw [this]
        intro hmem
        cases List.mem_cons.mp hmem with
        | inl h1 => exact hc h1.symm
        | inr h2 => exact hNot h2

/-- `beforeFirstChar` is the maximal `d`-free prefix: when `d ∈ l`,
`l = beforeFirstChar d l ++ d :: rest` for some `rest`. -/
theorem beforeFirstChar_decomp {d : Char} {l : List Char} (h : d ∈ l) :
    ∃ rest, l = beforeFirstChar d l ++ d :: rest ∧
      d ∉ beforeFirstChar d l := by
  simpa [beforeFirstChar] using takeWhile_ne_decomp h

/-- `afterLastChar` is the maximal `d`-free suffix: when `d ∈ l`,
`l = pre ++ d :: afterLastChar d l` for some `pre`. -/
theorem afterLastChar_decomp {d : Char} {l : List Char} (h : d ∈ l) :
    ∃ pre, l = pre ++ d :: afterLastChar d l ∧
      d ∉ afterLastChar d l := by
  have hrev : d ∈ l.reverse := List.mem_reverse.mpr h
  obtain ⟨rest, hEq, hNot⟩ := takeWhile_ne_decomp hrev
  refine ⟨rest.reverse, ?_, ?_⟩
  · have := congrArg List.reverse hEq
    simpa [afterLastChar, List.reverse_append] using this
  · intro hmem
    exact hNot (by simpa [afterLastChar] using hmem)

/-- C5 counterexample: the claim says `sub_lot_number` is the part after the
FIRST delimiter (`spec_sublot_number` renders that sentence), but the SQL's
`SUBSTRING_INDEX(lot_no, '-', -1)` takes the part after the LAST delimiter:
on `"A-B-C"` the code produces `"C"`, the claim demands `"B-C"`.  Also, the
claim's `'/'` fallback does not exist in the SPP query: on `"A/B"` the SPP
expressions yield `("A/B", "1")`, not `("A", "B")`. -/
theorem lot_split_first_delimiter_refuted :
    ie_sublot_number "A-B-C" = "C" ∧
    spec_sublot_number "A-B-C" = "B-C" ∧
    ie_sublot_number "A-B-C" ≠ spec_sublot_number "A-B-C" ∧
    spp_sublot_number "A/B" = "1" ∧ spp_main_lot "A/B" = "A/B" ∧
    spec_sublot_number "A/B" = "B" := by
  refine ⟨by decide, by decide, by decide, by decide, by decide, by decide⟩

/-- C5 (amended): `main_lot` is the part of `lot_no` before the FIRST
delimiter and `sub_lot_number` the part after the LAST delimiter, where the
Inspection Entry query uses `'-'`, falling back to `'/'` only when no `'-'`
is present, and the SPP query uses only `'-'`; with no delimiter,
`main_lot = lot_no` and `sub_lot_number = "1"` (e.g. `"LOT42"` yields
`("LOT42", "1")`). -/
theorem lot_split_amended (lot : String) :
    ('-' ∈ lot.data →
      (∃ rest, lot.data = (ie_main_lot lot).data ++ '-' :: rest ∧
        '-' ∉ (ie_main_lot lot).data) ∧
      (∃ pre, lot.data = pre ++ '-' :: (ie_sublot_number lot).data ∧
        '-' ∉ (ie_sublot_number lot).data) ∧
      spp_main_lot lot = ie_main_lot lot ∧
      spp_sublot_number lot = ie_sublot_number lot) ∧
    ('-' ∉ lot.data → '/' ∈ lot.data →
      (∃ rest, lot.data = (ie_main_lot lot).data ++ '/' :: rest ∧
        '/' ∉ (ie_main_lot lot).data) ∧
      (∃ pre, lot.data = pre ++ '/' :: (ie_sublot_number lot).data ∧
        '/' ∉ (ie_sublot_number lot).data) ∧
      spp_main_lot lot = lot ∧ spp_sublot_number lot = "1") ∧
    ('-' ∉ lot.data → '/' ∉ lot.data →
      ie_main_lot lot = lot ∧ ie_sublot_number lot = "1" ∧
      spp_main_lot lot = lot ∧ spp_sublot_number lot = "1") := by
  refine ⟨fun hd => ?_, fun hnd hs => ?_, fun hnd hns => ?_⟩
  · refine ⟨?_, ?_, ?_, ?_⟩
    · simpa [ie_main_lot, hd, beforeFirstChar] using takeWhile_ne_decomp hd
    · simpa [ie_sublot_number, hd] using afterLastChar_decomp hd
    · simp [spp_main_lot, ie_main_lot, hd]
    · simp [spp_sublot_number, ie_sublot_number, hd]
  · refine ⟨?_, ?_, ?_, ?_⟩
    · simpa [ie_main_lot, hnd, hs, beforeFirstChar] using takeWhile_ne_decomp hs
    · simpa [ie_sublot_number, hnd, hs] using afterLastChar_decomp hs
    · simp [spp_main_lot, hnd]
    · simp [spp_sublot_number, hnd]
  · exact ⟨by simp [ie_main_lot, hnd, hns], by simp [ie_sublot_number, hnd, hns],
      by simp [spp_main_lot, hnd], by simp [spp_sublot_number, hnd]⟩

/-- Witness for `lot_split_amended` at the concrete lots `"25A01U01-2"`
(delimited) and `"LOT42"` (undelimited). -/
theorem lot_split_amended_witness :
    ('-' ∈ "25A01U01-2".data ∧
      (∃ pre, "25A01U01-2".data =
        pre ++ '-' :: (ie_sublot_number "25A01U01-2").data ∧
        '-' ∉ (ie_sublot_number "25A01U01-2").data)) ∧
    ('-' ∉ "LOT42".data ∧ '/' ∉ "LOT42".data ∧
      ie_main_lot "LOT42" = "LOT42" ∧ ie_sublot_number "LOT42" = "1") := by
  refine ⟨⟨by decide, ((lot_split_amended "25A01U01-2").1 (by decide)).2.1⟩,
    by decide, by decide, ((lot_split_amended "LOT42").2.2 (by decide) (by decide)).1,
    ((lot_split_amended "LOT42").2.2 (by decide) (by decide)).2.1⟩

/-- If `firstMatch` produces a code, it is one of the rules\' codes. -/
theorem firstMatch_mem {rules : List ((String → Bool) × String)} {u c : String}
    (h : firstMatch rules u = some c) : c ∈ rules.map Prod.snd := by
  induction rules with
  | nil => simp [firstMatch] at h
  | cons pc rest ih =>
    obtain ⟨p, c0⟩ := pc
    by_cases hp : p u
    · simp [firstMatch, hp] at h
      simp [h]
    · simp [firstMatch, hp] at h
      simpa using Or.inr (ih h)

/-- If no rule matches, `firstMatch` produces nothing. -/
theorem firstMatch_eq_none {rules : List ((String → Bool) × String)} {u : String}
    (h : ∀ pc ∈ rules, pc.1 u = false) : firstMatch rules u = none := by
  induction rules with
  | nil => rfl
  | cons pc rest ih =>
    obtain ⟨p, c0⟩ := pc
    have hhd : p u = false := h (p, c0) (by simp)
    simp only [firstMatch, hhd, Bool.false_eq_true, if_false]
    exact ih (fun x hx => h x (by simp [hx]))

/-- C6: `normalize_defect_type` is total — for every input (`None`, the
empty string, or any label) it returns a code from the fixed catalog; a
`None` or empty label returns `"OTH"`, and a label matching no keyword rule
returns `"OTH"`. -/
theorem normalize_defect_type_total (d : Option String) :
    normalize_defect_type d ∈ defectCatalog ∧
    (d = none → normalize_defect_type d = "OTH") ∧
    (d = some "" → normalize_defect_type d = "OTH") ∧
    (∀ s, d = some s → anyRuleMatches (pyUpperStrip s) = false →
      normalize_defect_type d = "OTH") := by
  have hsub : ∀ x ∈ defectRules.map Prod.snd, x ∈ defectCatalog := by decide
  refine ⟨?_, ?_, ?_, ?_⟩
  · cases d with
    | none => decide
    | some s =>
      simp only [normalize_defect_type]
      by_cases hs : s = ""
      · simp [hs, defectCatalog]
      · simp only [hs, if_false]
        cases hfm : firstMatch defectRules (pyUpperStrip s) with
        | none => simp [defectCatalog]
        | some c => simpa using hsub c (firstMatch_mem hfm)
  · rintro rfl; rfl
  · rintro rfl; rfl
  · rintro s rfl hno
    have hall : ∀ pc ∈ defectRules, pc.1 (pyUpperStrip s) = false := by
      intro pc hpc
      by_contra hne
      have : pc.1 (pyUpperStrip s) = true := by
        cases hv : pc.1 (pyUpperStrip s) with
        | false => exact absurd hv hne
        | true => rfl
      have htrue : anyRuleMatches (pyUpperStrip s) = true := by
        unfold anyRuleMatches
        exact List.any_eq_true.mpr ⟨pc, hpc, this⟩
      rw [htrue] at hno
      simp at hno
    simp [normalize_defect_type, firstMatch_eq_none hall]

/-- Witness for `normalize_defect_type_total`: at `none`, at `some ""` and
at the unmatched label `"mystery"` every hypothesis is discharged
concretely. -/
theorem normalize_defect_type_total_witness :
    normalize_defect_type none = "OTH" ∧
    normalize_defect_type (some "") = "OTH" ∧
    normalize_defect_type (some "mystery") ∈ defectCatalog ∧
    normalize_defect_type (some "mystery") = "OTH" := by
  refine ⟨(normalize_defect_type_total none).2.1 rfl,
    (normalize_defect_type_total (some "")).2.2.1 rfl,
    (normalize_defect_type_total (some "mystery")).1,
    (normalize_defect_type_total (some "mystery")).2.2.2 "mystery" rfl (by decide)⟩

/-- C7: `normalize_defect_type` is a pure function — the same label always
yields the same single code — and on the overlapping label
`"BUBBLE DEFECT"` (which satisfies both the first "defect" keyword group and
the later "bubble" group) it yields exactly the first matching group's code
`"DT"`, so the label is never counted under two codes. -/
theorem normalize_defect_type_deterministic :
    (∀ l : Option String, normalize_defect_type l = normalize_defect_type l) ∧
    ruleDT (pyUpperStrip "BUBBLE DEFECT") = true ∧
    ruleBU (pyUpperStrip "BUBBLE DEFECT") = true ∧
    normalize_defect_type (some "BUBBLE DEFECT") = "DT" := by
  exact ⟨fun l => rfl, by decide, by decide, by decide⟩

/-- Lookup after `upsert`: the upserted key reads back the mutated value
(starting from the stored value, or the default when absent); other keys are
untouched. -/
theorem aget_upsert {α : Type} (d : List (String × α)) (k : String) (dflt : α)
    (g : α → α) (q : String) :
    aget (upsert d k dflt g) q =
      if q = k then some (g ((aget d k).getD dflt)) else aget d q := by
  induction d with
  | nil =>
    by_cases hq : q = k
    · subst hq; simp [upsert, aget]
    · simp [upsert, aget, hq, Ne.symm hq]
  | cons hd tl ih =>
    obtain ⟨k0, v0⟩ := hd
    by_cases h0 : k0 = k
    · subst h0
      by_cases hq : q = k0
      · subst hq; simp [upsert, aget]
      · simp [upsert, aget, hq, Ne.symm hq]
    · by_cases hq : q = k0
      · subst hq
        have hqk : ¬q = k := h0
        simp [upsert, aget, h0, hqk]
      · simp [upsert, aget, h0, Ne.symm hq, ih]

theorem sumBy_nil {α : Type} (f : α → ℚ) : sumBy [] f = 0 := rfl

theorem sumBy_cons {α : Type} (k : String) (v : α) (tl : List (String × α))
    (f : α → ℚ) : sumBy ((k, v) :: tl) f = f v + sumBy tl f := by
  simp [sumBy]

/-- Summing a field over an association list after `upsert`: if the mutation
adds `δ` to the field and the default has field value 0, the sum grows by
`δ`. -/
theorem sumBy_upsert {α : Type} (d : List (String × α)) (k : String) (dflt : α)
    (g : α → α) (f : α → ℚ) (δ : ℚ) (h0 : f dflt = 0)
    (hg : ∀ x, f (g x) = f x + δ) :
    sumBy (upsert d k dflt g) f = sumBy d f + δ := by
  induction d with
  | nil => simp [upsert, sumBy, hg dflt, h0]
  | cons hd tl ih =>
    obtain ⟨k0, v0⟩ := hd
    by_cases h0' : k0 = k
    · subst h0'
      rw [upsert, if_pos rfl, sumBy_cons, sumBy_cons, hg v0]
      ring
    · rw [upsert, if_neg h0', sumBy_cons, sumBy_cons, ih]
      ring

theorem lookupD_nil (c : String) : lookupD [] c = 0 := rfl

/-- `bump` adds `v` to the looked-up count of its key and nothing else. -/
theorem lookupD_bump (d : List (String × ℚ)) (k : String) (v : ℚ) (c : String) :
    lookupD (bump d k v) c = lookupD d c + (if k = c then v else 0) := by
  induction d with
  | nil =>
    by_cases hk : k = c <;> simp [bump, lookupD, aget, hk]
  | cons hd tl ih =>
    obtain ⟨k0, v0⟩ := hd
    by_cases h0 : k0 = k
    · subst h0
      by_cases hc : k0 = c
      · subst hc; simp [bump, lookupD, aget]
      · simp [bump, lookupD, aget, hc]
    · by_cases hc : k0 = c
      · subst hc
        have : ¬k = k0 := fun h => h0 h.symm
        simp [bump, lookupD, aget, h0, this]
      · simp only [bump, if_neg h0]
        simp only [lookupD, aget, if_neg hc] at ih ⊢
        exact ih

/-- Folding a pair list into a defect map adds exactly the pairs'
contribution at every code. -/
theorem lookupD_bumpAll (pairs : List (String × ℚ)) (d : List (String × ℚ))
    (c : String) :
    lookupD (bumpAll d pairs) c = lookupD d c + pairContrib pairs c := by
  induction pairs generalizing d with
  | nil => simp [bumpAll, pairContrib]
  | cons p ps ih =>
    have hstep : bumpAll d (p :: ps) = bumpAll (bump d p.1 p.2) ps := by
      simp [bumpAll]
    rw [hstep, ih, lookupD_bump]
    simp [pairContrib]
    ring

/-- The keys after `upsert`: unchanged when the key is present, the key
appended when absent. -/
theorem map_fst_upsert {α : Type} (d : List (String × α)) (k : String)
    (dflt : α) (g : α → α) :
    (upsert d k dflt g).map Prod.fst =
      if k ∈ d.map Prod.fst then d.map Prod.fst else d.map Prod.fst ++ [k] := by
  induction d with
  | nil => simp [upsert]
  | cons hd tl ih =>
    obtain ⟨k0, v0⟩ := hd
    by_cases h0 : k0 = k
    · subst h0; simp [upsert]
    · have hne : ¬k = k0 := fun h => h0 h.symm
      by_cases hmem : k ∈ tl.map Prod.fst
      · simp [upsert, h0, ih, hmem, hne]
      · simp [upsert, h0, ih, hmem, hne]

/-- The keys after `bump`: unchanged when the key is present, the key
appended when absent. -/
theorem map_fst_bump (d : List (String × ℚ)) (k : String) (v : ℚ) :
    (bump d k v).map Prod.fst =
      if k ∈ d.map Prod.fst then d.map Prod.fst else d.map Prod.fst ++ [k] := by
  induction d with
  | nil => simp [bump]
  | cons hd tl ih =>
    obtain ⟨k0, v0⟩ := hd
    by_cases h0 : k0 = k
    · subst h0; simp [bump]
    · have hne : ¬k = k0 := fun h => h0 h.symm
      by_cases hmem : k ∈ tl.map Prod.fst
      · simp [bump, h0, ih, hmem, hne]
      · simp [bump, h0, ih, hmem, hne]

theorem mem_insertSorted (a x : String) (l : List String) :
    a ∈ insertSorted x l ↔ a = x ∨ a ∈ l := by
  induction l with
  | nil => simp [insertSorted]
  | cons y tl ih =>
    by_cases hle : x ≤ y
    · simp [insertSorted, hle]
    · simp [insertSorted, hle, ih]
      tauto

/-- `sortStrings` preserves membership. -/
theorem mem_sortStrings (a : String) (l : List String) :
    a ∈ sortStrings l ↔ a ∈ l := by
  induction l with
  | nil => simp [sortStrings]
  | cons x tl ih =>
    simp only [sortStrings, List.foldr] at ih ⊢
    rw [mem_insertSorted, ih, List.mem_cons]

theorem MEntryBalanced_empty : MEntryBalanced emptyMainLot := by
  refine ⟨rfl, rfl, rfl, fun c => rfl⟩

/-- Adding one record to a balanced main-lot node keeps it balanced: each
total and each defect count grows by the record's contribution on both
sides. -/
theorem MEntryBalanced_add (r : Record) {md : MainLotGroup}
    (h : MEntryBalanced md) : MEntryBalanced (addToMainLot r md) := by
  obtain ⟨h1, h2, h3, h4⟩ := h
  refine ⟨?_, ?_, ?_, ?_⟩
  · show md.total_inspected + r.inspected_qty = _
    rw [show (addToMainLot r md).sublots
        = upsert md.sublots (sublotKey r) (initSubLot r) (addToSubLot r) from rfl,
      sumBy_upsert md.sublots (sublotKey r) (initSubLot r) (addToSubLot r)
        (fun s => s.inspected_qty) r.inspected_qty rfl (fun s => rfl), ← h1]
  · show md.total_rejected + r.rejected_qty = _
    rw [show (addToMainLot r md).sublots
        = upsert md.sublots (sublotKey r) (initSubLot r) (addToSubLot r) from rfl,
      sumBy_upsert md.sublots (sublotKey r) (initSubLot r) (addToSubLot r)
        (fun s => s.rejected_qty) r.rejected_qty rfl (fun s => rfl), ← h2]
  · show md.total_cost + r.rejection_cost = _
    rw [show (addToMainLot r md).sublots
        = upsert md.sublots (sublotKey r) (initSubLot r) (addToSubLot r) from rfl,
      sumBy_upsert md.sublots (sublotKey r) (initSubLot r) (addToSubLot r)
        (fun s => s.rejection_cost) r.rejection_cost rfl (fun s => rfl), ← h3]
  · intro c
    show lookupD (bumpAll md.defects (parsedPairs r.defect_details)) c = _
    rw [lookupD_bumpAll,
      show (addToMainLot r md).sublots
        = upsert md.sublots (sublotKey r) (initSubLot r) (addToSubLot r) from rfl,
      sumBy_upsert md.sublots (sublotKey r) (initSubLot r) (addToSubLot r)
        (fun s => lookupD s.defects c)
        (pairContrib (parsedPairs r.defect_details) c)
        (by simp [initSubLot, lookupD_nil])
        (fun s => by
          show lookupD (bumpAll s.defects (parsedPairs r.defect_details)) c = _
          rw [lookupD_bumpAll]),
      h4 c]

theorem PEntryBalanced_empty : PEntryBalanced emptyProduct := by
  refine ⟨⟨rfl, rfl, rfl, fun c => rfl⟩, fun km md h => ?_⟩
  simp [emptyProduct, aget] at h

/-- Adding one record to a balanced product node keeps it balanced. -/
theorem PEntryBalanced_add (r : Record) {pd : ProductGroup}
    (h : PEntryBalanced pd) : PEntryBalanced (addToProduct r pd) := by
  obtain ⟨⟨h1, h2, h3, h4⟩, hin⟩ := h
  refine ⟨⟨?_, ?_, ?_, ?_⟩, ?_⟩
  · show pd.total_inspected + r.inspected_qty = _
    rw [show (addToProduct r pd).main_lots
        = upsert pd.main_lots (mainLotKey r) emptyMainLot (addToMainLot r) from rfl,
      sumBy_upsert pd.main_lots (mainLotKey r) emptyMainLot (addToMainLot r)
        (fun m => m.total_inspected) r.inspected_qty rfl (fun m => rfl), ← h1]
  · show pd.total_rejected + r.rejected_qty = _
    rw [show (addToProduct r pd).main_lots
        = upsert pd.main_lots (mainLotKey r) emptyMainLot (addToMainLot r) from rfl,
      sumBy_upsert pd.main_lots (mainLotKey r) emptyMainLot (addToMainLot r)
        (fun m => m.total_rejected) r.rejected_qty rfl (fun m => rfl), ← h2]
  · show pd.total_cost + r.rejection_cost = _
    rw [show (addToProduct r pd).main_lots
        = upsert pd.main_lots (mainLotKey r) emptyMainLot (addToMainLot r) from rfl,
      sumBy_upsert pd.main_lots (mainLotKey r) emptyMainLot (addToMainLot r)
        (fun m => m.total_cost) r.rejection_cost rfl (fun m => rfl), ← h3]
  · intro c
    show lookupD (bumpAll pd.defects (parsedPairs r.defect_details)) c = _
    rw [lookupD_bumpAll,
      show (addToProduct r pd).main_lots
        = upsert pd.main_lots (mainLotKey r) emptyMainLot (addToMainLot r) from rfl,
      sumBy_upsert pd.main_lots (mainLotKey r) emptyMainLot (addToMainLot r)
        (fun m => lookupD m.defects c)
        (pairContrib (parsedPairs r.defect_details) c)
        (by simp [emptyMainLot, lookupD_nil])
        (fun m => by
          show lookupD (bumpAll m.defects (parsedPairs r.defect_details)) c = _
          rw [lookupD_bumpAll]),
      h4 c]
  · intro km md hget
    rw [show (addToProduct r pd).main_lots
        = upsert pd.main_lots (mainLotKey r) emptyMainLot (addToMainLot r) from rfl,
      aget_upsert] at hget
    by_cases hk : km = mainLotKey r
    · rw [if_pos hk] at hget
      cases hget
      cases hm0 : aget pd.main_lots (mainLotKey r) with
      | none =>
        rw [Option.getD_none]
        exact MEntryBalanced_add r MEntryBalanced_empty
      | some m0 =>
        rw [Option.getD_some]
        exact MEntryBalanced_add r (hin _ m0 hm0)
    · rw [if_neg hk] at hget
      exact hin _ md hget

theorem rollupBalanced_nil : RollupBalanced [] := by
  intro kp pd h
  simp [aget] at h

/-- One loop iteration preserves the roll-up invariant. -/
theorem rollupBalanced_step (r : Record)
    {groups : List (String × ProductGroup)} (h : RollupBalanced groups) :
    RollupBalanced (processRecord ⟨groups, cs⟩ r).groups := by
  intro kp pd hget
  rw [show (processRecord ⟨groups, cs⟩ r).groups
      = upsert groups (productKey r) emptyProduct (addToProduct r) from rfl,
    aget_upsert] at hget
  by_cases hk : kp = productKey r
  · rw [if_pos hk] at hget
    cases hget
    cases hp0 : aget groups (productKey r) with
    | none =>
      rw [Option.getD_none]
      exact PEntryBalanced_add r PEntryBalanced_empty
    | some p0 =>
      rw [Option.getD_some]
      exact PEntryBalanced_add r (h _ p0 hp0)
  · rw [if_neg hk] at hget
    exact h _ pd hget

/-- The whole loop preserves the roll-up invariant from any starting
state. -/
theorem rollupBalanced_foldl (data : List Record) :
    ∀ st : PivotState, RollupBalanced st.groups →
      RollupBalanced ((data.foldl processRecord st).groups) := by
  induction data with
  | nil => exact fun st h => h
  | cons r rest ih =>
    intro st h
    exact ih _ (rollupBalanced_step r h)

/-- C1: roll-up invariant — in the tree built by
`_get_product_grouped_pivot_data`, for every input record list, every
product node's `total_inspected`, `total_rejected`, `total_cost` and every
per-defect-code count equal the sums of the corresponding fields over its
child main-lot nodes, and every main-lot node's equal the sums over its
child sub-lot nodes. -/
theorem pivot_rollup_invariant (data : List Record) :
    ∀ kp pd, aget (buildState data).groups kp = some pd →
      (pd.total_inspected = sumBy pd.main_lots (fun m => m.total_inspected) ∧
       pd.total_rejected = sumBy pd.main_lots (fun m => m.total_rejected) ∧
       pd.total_cost = sumBy pd.main_lots (fun m => m.total_cost) ∧
       ∀ c, lookupD pd.defects c
          = sumBy pd.main_lots (fun m => lookupD m.defects c)) ∧
      ∀ km md, aget pd.main_lots km = some md →
        md.total_inspected = sumBy md.sublots (fun s => s.inspected_qty) ∧
        md.total_rejected = sumBy md.sublots (fun s => s.rejected_qty) ∧
        md.total_cost = sumBy md.sublots (fun s => s.rejection_cost) ∧
        ∀ c, lookupD md.defects c
          = sumBy md.sublots (fun s => lookupD s.defects c) := by
  have h : RollupBalanced (buildState data).groups :=
    rollupBalanced_foldl data ⟨[], []⟩ rollupBalanced_nil
  intro kp pd hget
  obtain ⟨⟨h1, h2, h3, h4⟩, hin⟩ := h kp pd hget
  exact ⟨⟨h1, h2, h3, h4⟩, fun km md hm => hin km md hm⟩

/-- Witness for `pivot_rollup_invariant` on the singleton input `[wrec1]`:
the product node `wprod1` is reached at key `"T100"` and its totals agree
with the sums over its main lots. -/
theorem pivot_rollup_invariant_witness :
    aget (buildState [wrec1]).groups "T100" = some wprod1 ∧
    wprod1.total_inspected = sumBy wprod1.main_lots (fun m => m.total_inspected) ∧
    (∀ c, lookupD wprod1.defects c
      = sumBy wprod1.main_lots (fun m => lookupD m.defects c)) := by
  have hget : aget (buildState [wrec1]).groups "T100" = some wprod1 := by
    simp +decide [buildState, processRecord, addToProduct, addToMainLot,
      addToSubLot, upsert, bumpAll, bump, aget, parsedPairs, chunkPairs,
      chunkPair, pySplit, splitOnSepFuel, flt_str, pyFloatOfStr, pyFloatCore,
      pyStrip, parseSign, parseMant, splitOnCharP, parseUDec, isDigitCh,
      digitsToNat, productKey, mainLotKey, sublotKey, orUnknown, emptyProduct,
      emptyMainLot, initSubLot, addCodes, addCode, wrec1, wprod1, wmain1, wsub1]
  refine ⟨hget, (pivot_rollup_invariant [wrec1] "T100" wprod1 hget).1.1,
    (pivot_rollup_invariant [wrec1] "T100" wprod1 hget).1.2.2.2⟩

/-- Summing a product-group field over the whole loop: every record adds
its own contribution. -/
theorem sumBy_groups_foldl (f : ProductGroup → ℚ) (v : Record → ℚ)
    (h0 : f emptyProduct = 0)
    (hg : ∀ r p, f (addToProduct r p) = f p + v r) :
    ∀ (data : List Record) (st : PivotState),
      sumBy ((data.foldl processRecord st).groups) f
        = sumBy st.groups f + (data.map v).sum := by
  intro data
  induction data with
  | nil => intro st; simp
  | cons r rest ih =>
    intro st
    have hstep : sumBy ((processRecord st r).groups) f = sumBy st.groups f + v r := by
      show sumBy (upsert st.groups (productKey r) emptyProduct (addToProduct r)) f = _
      exact sumBy_upsert st.groups (productKey r) emptyProduct (addToProduct r)
        f (v r) h0 (fun p => hg r p)
    calc sumBy (((r :: rest).foldl processRecord st).groups) f
        = sumBy ((rest.foldl processRecord (processRecord st r)).groups) f := rfl
      _ = sumBy ((processRecord st r).groups) f + (rest.map v).sum := ih _
      _ = sumBy st.groups f + v r + (rest.map v).sum := by rw [hstep]
      _ = sumBy st.groups f + ((r :: rest).map v).sum := by simp; ring

/-- `addCode` in terms of propositional membership. -/
theorem addCode_eq_ite (l : List String) (c : String) :
    addCode l c = if c ∈ l then l else l ++ [c] := by
  by_cases h : c ∈ l <;> simp [addCode, h]

/-- The product keys collected by the loop are `addCode`-accumulated
product keys of the records. -/
theorem keys_groups_foldl :
    ∀ (data : List Record) (st : PivotState),
      ((data.foldl processRecord st).groups).map Prod.fst
        = data.foldl (fun acc r => addCode acc (productKey r))
            (st.groups.map Prod.fst) := by
  intro data
  induction data with
  | nil => intro st; rfl
  | cons r rest ih =>
    intro st
    have hstep : ((processRecord st r).groups).map Prod.fst
        = addCode (st.groups.map Prod.fst) (productKey r) := by
      rw [show (processRecord st r).groups
          = upsert st.groups (productKey r) emptyProduct (addToProduct r) from rfl,
        map_fst_upsert, addCode_eq_ite]
    calc (((r :: rest).foldl processRecord st).groups).map Prod.fst
        = ((rest.foldl processRecord (processRecord st r)).groups).map Prod.fst := rfl
      _ = rest.foldl (fun acc r => addCode acc (productKey r))
            (((processRecord st r).groups).map Prod.fst) := ih _
      _ = _ := by rw [hstep]; rfl

theorem addCode_nodup {l : List String} (h : l.Nodup) (c : String) :
    (addCode l c).Nodup := by
  rw [addCode_eq_ite]
  by_cases hm : c ∈ l <;> simp [hm, h, List.nodup_append]

theorem addCode_toFinset (l : List String) (c : String) :
    (addCode l c).toFinset = insert c l.toFinset := by
  rw [addCode_eq_ite]
  by_cases hm : c ∈ l
  · rw [if_pos hm]
    exact (Finset.insert_eq_self.mpr (List.mem_toFinset.mpr hm)).symm
  · rw [if_neg hm]
    simp [Finset.insert_eq, Finset.union_comm]

theorem foldlAddCode_nodup :
    ∀ (data : List Record) (acc : List String), acc.Nodup →
      (data.foldl (fun a r => addCode a (productKey r)) acc).Nodup := by
  intro data
  induction data with
  | nil => exact fun acc h => h
  | cons r rest ih => exact fun acc h => ih _ (addCode_nodup h _)

theorem foldlAddCode_toFinset :
    ∀ (data : List Record) (acc : List String),
      (data.foldl (fun a r => addCode a (productKey r)) acc).toFinset
        = acc.toFinset ∪ (data.map productKey).toFinset := by
  intro data
  induction data with
  | nil => intro acc; simp
  | cons r rest ih =>
    intro acc
    calc ((r :: rest).foldl (fun a r => addCode a (productKey r)) acc).toFinset
        = (rest.foldl (fun a r => addCode a (productKey r))
            (addCode acc (productKey r))).toFinset := rfl
      _ = (addCode acc (productKey r)).toFinset ∪ (rest.map productKey).toFinset := ih _
      _ = insert (productKey r) acc.toFinset ∪ (rest.map productKey).toFinset := by
          rw [addCode_toFinset]
      _ = acc.toFinset ∪ ((r :: rest).map productKey).toFinset := by
          simp [Finset.insert_union, Finset.union_insert]

/-- C2: for every input record list, the returned summary's
`total_inspected` is the sum of `inspected_qty` over ALL input records
(records bucketed under `"Unknown"` included), `total_rejected` the sum of
`rejected_qty`, and `total_products` the number of distinct product
buckets. -/
theorem pivot_summary_totals (data : List Record) :
    (get_product_grouped_pivot_data data).summary_total_inspected
      = (data.map (fun r => r.inspected_qty)).sum ∧
    (get_product_grouped_pivot_data data).summary_total_rejected
      = (data.map (fun r => r.rejected_qty)).sum ∧
    (get_product_grouped_pivot_data data).summary_total_products
      = (data.map productKey).toFinset.card := by
  refine ⟨?_, ?_, ?_⟩
  · show sumBy (buildState data).groups (fun p => p.total_inspected) = _
    rw [show buildState data = data.foldl processRecord ⟨[], []⟩ from rfl,
      sumBy_groups_foldl (fun p => p.total_inspected) (fun r => r.inspected_qty)
        rfl (fun r p => rfl)]
    simp [sumBy]
  · show sumBy (buildState data).groups (fun p => p.total_rejected) = _
    rw [show buildState data = data.foldl processRecord ⟨[], []⟩ from rfl,
      sumBy_groups_foldl (fun p => p.total_rejected) (fun r => r.rejected_qty)
        rfl (fun r p => rfl)]
    simp [sumBy]
  · show ((buildState data).groups).length = _
    have hlen : ((buildState data).groups).length
        = (((buildState data).groups).map Prod.fst).length := by
      simp
    have hkeys := keys_groups_foldl data ⟨[], []⟩
    have hnodup : (((buildState data).groups).map Prod.fst).Nodup := by
      rw [show (buildState data).groups = (data.foldl processRecord ⟨[], []⟩).groups
          from rfl, hkeys]
      exact foldlAddCode_nodup data [] (by simp)
    have hfin : (((buildState data).groups).map Prod.fst).toFinset
        = (data.map productKey).toFinset := by
      rw [show (buildState data).groups = (data.foldl processRecord ⟨[], []⟩).groups
          from rfl, hkeys, foldlAddCode_toFinset]
      simp
    rw [hlen, ← List.toFinset_card_of_nodup hnodup, hfin]

/-- C3: every emitted row's `rate` equals
`round(rejected/inspected*100, 2)` computed from that row's own rolled-up
`rejected` and `inspected` fields when `inspected > 0`, and 0 otherwise —
it is never an average or sum of child rates. -/
theorem pivot_rate_formula (data : List Record) :
    ∀ row ∈ (get_product_grouped_pivot_data data).rows,
      row.rate = if 0 < row.inspected
        then pyRound2 (row.rejected / row.inspected * 100) else 0 := by
  intro row hrow
  have hrow' : row ∈ flattenRows (buildState data).groups := hrow
  rw [flattenRows, List.mem_flatMap] at hrow'
  obtain ⟨pp, _, hmem⟩ := hrow'
  rcases List.mem_cons.mp hmem with hp | hmem2
  · subst hp; simp [productRow, rateOf]
  · rw [List.mem_flatMap] at hmem2
    obtain ⟨mm, _, hmem3⟩ := hmem2
    rcases List.mem_cons.mp hmem3 with hm | hmem4
    · subst hm; simp [mainLotRow, rateOf]
    · rw [List.mem_map] at hmem4
      obtain ⟨ss, _, hs⟩ := hmem4
      subst hs; simp [subLotRow, rateOf]

/-- Witness for `pivot_rate_formula`: the product row of `[wrec1]` is in
the output and satisfies the rate formula. -/
theorem pivot_rate_formula_witness :
    productRow "T100" wprod1 ∈ (get_product_grouped_pivot_data [wrec1]).rows ∧
    (productRow "T100" wprod1).rate
      = if 0 < (productRow "T100" wprod1).inspected
        then pyRound2 ((productRow "T100" wprod1).rejected
          / (productRow "T100" wprod1).inspected * 100) else 0 := by
  have hmem : productRow "T100" wprod1
      ∈ (get_product_grouped_pivot_data [wrec1]).rows := by
    have hn : normalize_defect_type (some "Bend") = "BD" := by decide
    simp +decide [hn, get_product_grouped_pivot_data, buildState, processRecord,
      addToProduct, addToMainLot, addToSubLot, upsert, bumpAll, bump,
      flattenRows, parsedPairs, chunkPairs, chunkPair, pySplit, splitOnSepFuel,
      flt_str, pyFloatOfStr, pyFloatCore, pyStrip, parseSign, parseMant,
      splitOnCharP, parseUDec, isDigitCh, digitsToNat, productKey, mainLotKey,
      sublotKey, orUnknown, emptyProduct, emptyMainLot, initSubLot, addCodes,
      addCode, wrec1, wprod1, wmain1, wsub1]
  exact ⟨hmem, pivot_rate_formula [wrec1] (productRow "T100" wprod1) hmem⟩

/-- C9: a record with empty or NULL `item_code` groups under the literal
`"Unknown"` product key, a record with empty or NULL `main_lot` groups
under the literal `"Unknown"` main-lot key, and such records contribute to
the summary totals exactly like any other record. -/
theorem unknown_bucketing :
    (∀ r : Record, r.item_code = none ∨ r.item_code = some "" →
      productKey r = "Unknown") ∧
    (∀ r : Record, r.main_lot = none ∨ r.main_lot = some "" →
      mainLotKey r = "Unknown") ∧
    ∀ data : List Record,
      (get_product_grouped_pivot_data data).summary_total_inspected
        = (data.map (fun r => r.inspected_qty)).sum ∧
      (get_product_grouped_pivot_data data).summary_total_rejected
        = (data.map (fun r => r.rejected_qty)).sum := by
  refine ⟨?_, ?_, ?_⟩
  · rintro r (h | h) <;> simp [productKey, orUnknown, h]
  · rintro r (h | h) <;> simp [mainLotKey, orUnknown, h]
  · intro data
    constructor
    · show sumBy (buildState data).groups (fun p => p.total_inspected) = _
      rw [show buildState data = data.foldl processRecord ⟨[], []⟩ from rfl,
        sumBy_groups_foldl (fun p => p.total_inspected)
          (fun r => r.inspected_qty) rfl (fun r p => rfl)]
      simp [sumBy]
    · show sumBy (buildState data).groups (fun p => p.total_rejected) = _
      rw [show buildState data = data.foldl processRecord ⟨[], []⟩ from rfl,
        sumBy_groups_foldl (fun p => p.total_rejected)
          (fun r => r.rejected_qty) rfl (fun r p => rfl)]
      simp [sumBy]

/-- Witness for `unknown_bucketing` at the all-NULL record `wrecUnknown`:
it lands in the `"Unknown"` buckets and still contributes its 7 inspected
pieces to the summary. -/
theorem unknown_bucketing_witness :
    productKey wrecUnknown = "Unknown" ∧
    mainLotKey wrecUnknown = "Unknown" ∧
    (get_product_grouped_pivot_data [wrecUnknown]).summary_total_inspected = 7 := by
  refine ⟨unknown_bucketing.1 wrecUnknown (Or.inl rfl),
    unknown_bucketing.2.1 wrecUnknown (Or.inl rfl), ?_⟩
  rw [(unknown_bucketing.2.2 [wrecUnknown]).1]
  simp [wrecUnknown]

theorem matchingRecs_nil (kp km ks : String) : matchingRecs [] kp km ks = [] := rfl

/-- Appending one record to the input appends it to exactly the matching
lists of its own grouping keys. -/
theorem matchingRecs_append_single (done : List Record) (r : Record)
    (kp km ks : String) :
    matchingRecs (done ++ [r]) kp km ks =
      matchingRecs done kp km ks ++
        (if productKey r = kp ∧ mainLotKey r = km ∧ sublotKey r = ks
          then [r] else []) := by
  by_cases h : productKey r = kp ∧ mainLotKey r = km ∧ sublotKey r = ks
  · simp [matchingRecs, List.filter_append, List.filter, h]
  · have hb : (decide (productKey r = kp) &&
        (decide (mainLotKey r = km) && decide (sublotKey r = ks))) = false := by
      by_cases h1 : productKey r = kp
      · by_cases h2 : mainLotKey r = km
        · by_cases h3 : sublotKey r = ks
          · exact absurd ⟨h1, h2, h3⟩ h
          · simp [h3]
        · simp [h2]
      · simp [h1]
    simp [matchingRecs, List.filter_append, List.filter, hb, h]

/-- One loop iteration preserves `SubComplete`. -/
theorem subComplete_step (done : List Record) (r : Record) (st : PivotState)
    (hc : SubComplete done st.groups) :
    SubComplete (done ++ [r]) (processRecord st r).groups := by
  have hG : (processRecord st r).groups
      = upsert st.groups (productKey r) emptyProduct (addToProduct r) := rfl
  intro r0 hr0
  rcases List.mem_append.mp hr0 with hr0d | hr0r
  · obtain ⟨pd0, md0, sd0, h1, h2, h3⟩ := hc r0 hr0d
    by_cases hkp : productKey r0 = productKey r
    · rw [hkp] at h1
      have hA : aget (processRecord st r).groups (productKey r0)
          = some (addToProduct r pd0) := by
        rw [hG, aget_upsert, if_pos hkp, h1, Option.getD_some]
      have hmain : (addToProduct r pd0).main_lots
          = upsert pd0.main_lots (mainLotKey r) emptyMainLot (addToMainLot r) := rfl
      by_cases hkm : mainLotKey r0 = mainLotKey r
      · rw [hkm] at h2
        have hB : aget (addToProduct r pd0).main_lots (mainLotKey r0)
            = some (addToMainLot r md0) := by
          rw [hmain, aget_upsert, if_pos hkm, h2, Option.getD_some]
        have hsub : (addToMainLot r md0).sublots
            = upsert md0.sublots (sublotKey r) (initSubLot r) (addToSubLot r) := rfl
        by_cases hks : sublotKey r0 = sublotKey r
        · have hC : aget (addToMainLot r md0).sublots (sublotKey r0)
              = some (addToSubLot r
                  ((aget md0.sublots (sublotKey r)).getD (initSubLot r))) := by
            rw [hsub, aget_upsert, if_pos hks]
          exact ⟨_, _, _, hA, hB, hC⟩
        · have hC : aget (addToMainLot r md0).sublots (sublotKey r0) = some sd0 := by
            rw [hsub, aget_upsert, if_neg hks]
            exact h3
          exact ⟨_, _, _, hA, hB, hC⟩
      · have hB : aget (addToProduct r pd0).main_lots (mainLotKey r0) = some md0 := by
          rw [hmain, aget_upsert, if_neg hkm]
          exact h2
        exact ⟨_, _, _, hA, hB, h3⟩
    · have hA : aget (processRecord st r).groups (productKey r0) = some pd0 := by
        rw [hG, aget_upsert, if_neg hkp]
        exact h1
      exact ⟨_, _, _, hA, h2, h3⟩
  · rcases List.mem_singleton.mp hr0r with rfl
    have hA : aget (processRecord st r0).groups (productKey r0)
        = some (addToProduct r0 ((aget st.groups (productKey r0)).getD emptyProduct)) := by
      rw [hG, aget_upsert, if_pos rfl]
    have hB : aget (addToProduct r0
          ((aget st.groups (productKey r0)).getD emptyProduct)).main_lots
          (mainLotKey r0)
        = some (addToMainLot r0
            ((aget ((aget st.groups (productKey r0)).getD emptyProduct).main_lots
              (mainLotKey r0)).getD emptyMainLot)) := by
      rw [show (addToProduct r0
            ((aget st.groups (productKey r0)).getD emptyProduct)).main_lots
          = upsert ((aget st.groups (productKey r0)).getD emptyProduct).main_lots
              (mainLotKey r0) emptyMainLot (addToMainLot r0) from rfl,
        aget_upsert, if_pos rfl]
    have hC : aget (addToMainLot r0
          ((aget ((aget st.groups (productKey r0)).getD emptyProduct).main_lots
            (mainLotKey r0)).getD emptyMainLot)).sublots (sublotKey r0)
        = some (addToSubLot r0
            ((aget ((aget ((aget st.groups (productKey r0)).getD emptyProduct).main_lots
              (mainLotKey r0)).getD emptyMainLot).sublots
              (sublotKey r0)).getD (initSubLot r0))) := by
      rw [show (addToMainLot r0
            ((aget ((aget st.groups (productKey r0)).getD emptyProduct).main_lots
              (mainLotKey r0)).getD emptyMainLot)).sublots
          = upsert ((aget ((aget st.groups (productKey r0)).getD emptyProduct).main_lots
              (mainLotKey r0)).getD emptyMainLot).sublots
              (sublotKey r0) (initSubLot r0) (addToSubLot r0) from rfl,
        aget_upsert, if_pos rfl]
    exact ⟨_, _, _, hA, hB, hC⟩

/-- A record matching the grouping keys of a chain that has no entry in the
state contradicts `SubComplete` (helper for `subTracked_step`). -/
theorem matchingRecs_done_nil (done : List Record) (r : Record)
    (st : PivotState) (hc : SubComplete done st.groups)
    (hmiss : ∀ r0 : Record, r0 ∈ done →
      productKey r0 = productKey r → mainLotKey r0 = mainLotKey r →
      sublotKey r0 = sublotKey r → False) :
    matchingRecs done (productKey r) (mainLotKey r) (sublotKey r) = [] := by
  rw [List.eq_nil_iff_forall_not_mem]
  intro r0 hr0
  rw [matchingRecs, List.mem_filter] at hr0
  obtain ⟨hmem, hpred⟩ := hr0
  have hp := of_decide_eq_true hpred
  exact hmiss r0 hmem hp.1 hp.2.1 hp.2.2

/-- One loop iteration preserves `SubTracked`. -/
theorem subTracked_step (done : List Record) (r : Record) (st : PivotState)
    (ht : SubTracked done st.groups) (hc : SubComplete done st.groups) :
    SubTracked (done ++ [r]) (processRecord st r).groups := by
  have hG : (processRecord st r).groups
      = upsert st.groups (productKey r) emptyProduct (addToProduct r) := rfl
  intro kp pd hget km md hgm ks sd hgs
  rw [hG, aget_upsert] at hget
  by_cases hkp : kp = productKey r
  · subst hkp
    rw [if_pos rfl] at hget
    injection hget with hpd
    subst hpd
    rw [show (addToProduct r
          ((aget st.groups (productKey r)).getD emptyProduct)).main_lots
        = upsert ((aget st.groups (productKey r)).getD emptyProduct).main_lots
            (mainLotKey r) emptyMainLot (addToMainLot r) from rfl,
      aget_upsert] at hgm
    by_cases hkm : km = mainLotKey r
    · subst hkm
      rw [if_pos rfl] at hgm
      injection hgm with hmd
      subst hmd
      rw [show (addToMainLot r ((aget ((aget st.groups (productKey r)).getD
            emptyProduct).main_lots (mainLotKey r)).getD emptyMainLot)).sublots
          = upsert ((aget ((aget st.groups (productKey r)).getD
              emptyProduct).main_lots (mainLotKey r)).getD emptyMainLot).sublots
              (sublotKey r) (initSubLot r) (addToSubLot r) from rfl,
        aget_upsert] at hgs
      by_cases hks : ks = sublotKey r
      · subst hks
        rw [if_pos rfl] at hgs
        injection hgs with hsd
        subst hsd
        have hmatch : matchingRecs (done ++ [r]) (productKey r) (mainLotKey r)
              (sublotKey r)
            = matchingRecs done (productKey r) (mainLotKey r) (sublotKey r)
                ++ [r] := by
          rw [matchingRecs_append_single, if_pos ⟨rfl, rfl, rfl⟩]
        cases hy : aget st.groups (productKey r) with
        | none =>
          have hempty : matchingRecs done (productKey r) (mainLotKey r)
              (sublotKey r) = [] := by
            refine matchingRecs_done_nil done r st hc ?_
            intro r0 hr0 hp _ _
            obtain ⟨pd0, md0, sd0, h1, _, _⟩ := hc r0 hr0
            rw [hp] at h1
            rw [h1] at hy
            cases hy
          rw [hmatch, hempty]
          refine ⟨by simp, ?_, ?_, ?_, ?_, ?_⟩ <;>
            simp [hy, emptyProduct, emptyMainLot, aget, addToSubLot,
              initSubLot, lookupD_bumpAll, lookupD_nil, pairContrib]
        | some y0 =>
          cases hym : aget y0.main_lots (mainLotKey r) with
          | none =>
            have hempty : matchingRecs done (productKey r) (mainLotKey r)
                (sublotKey r) = [] := by
              refine matchingRecs_done_nil done r st hc ?_
              intro r0 hr0 hp hm _
              obtain ⟨pd0, md0, sd0, h1, h2, _⟩ := hc r0 hr0
              rw [hp] at h1
              rw [h1] at hy
              injection hy with hy0
              rw [hm, hy0] at h2
              rw [h2] at hym
              cases hym
            rw [hmatch, hempty]
            refine ⟨by simp, ?_, ?_, ?_, ?_, ?_⟩ <;>
              simp [hy, hym, emptyMainLot, aget, addToSubLot, initSubLot,
                lookupD_bumpAll, lookupD_nil, pairContrib]
          | some m0 =>
            cases hsm : aget m0.sublots (sublotKey r) with
            | none =>
              have hempty : matchingRecs done (productKey r) (mainLotKey r)
                  (sublotKey r) = [] := by
                refine matchingRecs_done_nil done r st hc ?_
                intro r0 hr0 hp hm hs
                obtain ⟨pd0, md0, sd0, h1, h2, h3⟩ := hc r0 hr0
                rw [hp] at h1
                rw [h1] at hy
                injection hy with hy0
                rw [hm, hy0] at h2
                rw [h2] at hym
                injection hym with hym0
                rw [hs, hym0] at h3
                rw [h3] at hsm
                cases hsm
              rw [hmatch, hempty]
              refine ⟨by simp, ?_, ?_, ?_, ?_, ?_⟩ <;>
                simp [hy, hym, hsm, addToSubLot, initSubLot,
                  lookupD_bumpAll, lookupD_nil, pairContrib]
            | some s1 =>
              obtain ⟨hne, hs1, hs2, hs3, hdef, hmeta⟩ :=
                ht (productKey r) y0 hy (mainLotKey r) m0 hym (sublotKey r) s1 hsm
              rw [hmatch]
              obtain ⟨a, tl, hcons⟩ := List.exists_cons_of_ne_nil hne
              refine ⟨by simp, ?_, ?_, ?_, ?_, ?_⟩
              · simp [hy, hym, hsm, addToSubLot, hs1]
              · simp [hy, hym, hsm, addToSubLot, hs2]
              · simp [hy, hym, hsm, addToSubLot, hs3]
              · intro c
                simp [hy, hym, hsm, addToSubLot, lookupD_bumpAll, hdef c]
              · intro r0 hr0
                rw [hcons] at hr0
                simp only [List.cons_append, List.head?_cons,
                  Option.some.injEq] at hr0
                subst hr0
                have hma := hmeta a (by rw [hcons]; rfl)
                simp [hy, hym, hsm, addToSubLot, hma]
      · rw [if_neg hks] at hgs
        have hnm : matchingRecs (done ++ [r]) (productKey r) (mainLotKey r) ks
            = matchingRecs done (productKey r) (mainLotKey r) ks := by
          have hcond : ¬(productKey r = productKey r ∧
              mainLotKey r = mainLotKey r ∧ sublotKey r = ks) := by
            rintro ⟨_, _, hh⟩
            exact hks hh.symm
          rw [matchingRecs_append_single, if_neg hcond, List.append_nil]
        rw [hnm]
        cases hy : aget st.groups (productKey r) with
        | none =>
          rw [hy] at hgs
          simp [emptyProduct, emptyMainLot, aget] at hgs
        | some y0 =>
          rw [hy, Option.getD_some] at hgs
          cases hym : aget y0.main_lots (mainLotKey r) with
          | none =>
            rw [hym] at hgs
            simp [emptyMainLot, aget] at hgs
          | some m0 =>
            rw [hym, Option.getD_some] at hgs
            exact ht (productKey r) y0 hy (mainLotKey r) m0 hym ks sd hgs
    · rw [if_neg hkm] at hgm
      have hnm : matchingRecs (done ++ [r]) (productKey r) km ks
          = matchingRecs done (productKey r) km ks := by
        have hcond : ¬(productKey r = productKey r ∧ mainLotKey r = km ∧
            sublotKey r = ks) := by
          rintro ⟨_, hh, _⟩
          exact hkm hh.symm
        rw [matchingRecs_append_single, if_neg hcond, List.append_nil]
      rw [hnm]
      cases hy : aget st.groups (productKey r) with
      | none =>
        rw [hy] at hgm
        simp [emptyProduct, aget] at hgm
      | some y0 =>
        rw [hy, Option.getD_some] at hgm
        exact ht (productKey r) y0 hy km md hgm ks sd hgs
  · rw [if_neg hkp] at hget
    have hnm : matchingRecs (done ++ [r]) kp km ks
        = matchingRecs done kp km ks := by
      have hcond : ¬(productKey r = kp ∧ mainLotKey r = km ∧
          sublotKey r = ks) := by
        rintro ⟨hh, _, _⟩
        exact hkp hh.symm
      rw [matchingRecs_append_single, if_neg hcond, List.append_nil]
    rw [hnm]
    exact ht kp pd hget km md hgm ks sd hgs

theorem subTracked_nil : SubTracked [] [] := by
  intro kp pd h
  simp [aget] at h

theorem subComplete_nil : SubComplete [] [] := by
  intro r0 h
  cases h

/-- The two sub-lot invariants hold after folding any suffix from any
invariant-satisfying state. -/
theorem subInv_foldl :
    ∀ (rest done : List Record) (st : PivotState),
      SubTracked done st.groups → SubComplete done st.groups →
      SubTracked (done ++ rest) ((rest.foldl processRecord st).groups) ∧
      SubComplete (done ++ rest) ((rest.foldl processRecord st).groups) := by
  intro rest
  induction rest with
  | nil => intro done st ht hc; simpa using ⟨ht, hc⟩
  | cons r rest ih =>
    intro done st ht hc
    have h1 := subTracked_step done r st ht hc
    have h2 := subComplete_step done r st hc
    have h3 := ih (done ++ [r]) (processRecord st r) h1 h2
    simpa using h3

/-- C10: records sharing `(product, main_lot, sublot_number)` are merged
into a single sub-lot entry whose `inspected_qty`, `rejected_qty`,
`rejection_cost` and per-code defect counts are the sums over those records,
while `lot_no`, `posting_date`, `inspector_code`, `inspection_type`,
`document_name` (and `source_type`) are taken verbatim from the first such
record in input order. -/
theorem pivot_sublot_merge (data : List Record) :
    ∀ kp pd, aget (buildState data).groups kp = some pd →
    ∀ km md, aget pd.main_lots km = some md →
    ∀ ks sd, aget md.sublots ks = some sd →
      matchingRecs data kp km ks ≠ [] ∧
      sd.inspected_qty
        = ((matchingRecs data kp km ks).map (fun r => r.inspected_qty)).sum ∧
      sd.rejected_qty
        = ((matchingRecs data kp km ks).map (fun r => r.rejected_qty)).sum ∧
      sd.rejection_cost
        = ((matchingRecs data kp km ks).map (fun r => r.rejection_cost)).sum ∧
      (∀ c, lookupD sd.defects c
        = ((matchingRecs data kp km ks).map
            (fun r => pairContrib (parsedPairs r.defect_details) c)).sum) ∧
      ∀ r0, (matchingRecs data kp km ks).head? = some r0 →
        sd.lot_no = r0.lot_no ∧ sd.posting_date = r0.posting_date ∧
        sd.inspector_code = r0.inspector_code ∧
        sd.inspection_type = r0.inspection_type ∧
        sd.document_name = r0.document_name ∧
        sd.source_type = r0.source_type := by
  have h := (subInv_foldl data [] ⟨[], []⟩ subTracked_nil subComplete_nil).1
  simpa using h

/-- Witness for `pivot_sublot_merge` on `[wrec1, wrec1b]`, which share the
grouping triple `("T100", "25A01U01", "2")`: the single merged sub-lot entry
sums the quantities (130 inspected) and keeps `wrec1`'s metadata. -/
theorem pivot_sublot_merge_witness :
    aget (buildState [wrec1, wrec1b]).groups "T100" = some wprodM ∧
    wsubM.inspected_qty
      = ((matchingRecs [wrec1, wrec1b] "T100" "25A01U01" "25A01U01_2").map
          (fun r => r.inspected_qty)).sum ∧
    wsubM.lot_no = wrec1.lot_no ∧ wsubM.document_name = wrec1.document_name := by
  have hn1 : normalize_defect_type (some "Bend") = "BD" := by decide
  have h1 : aget (buildState [wrec1, wrec1b]).groups "T100" = some wprodM := by
    simp +decide [hn1, buildState, processRecord, addToProduct, addToMainLot,
      addToSubLot, upsert, bumpAll, bump, aget, parsedPairs, chunkPairs,
      chunkPair, pySplit, splitOnSepFuel, flt_str, pyFloatOfStr, pyFloatCore,
      pyStrip, parseSign, parseMant, splitOnCharP, parseUDec, isDigitCh,
      digitsToNat, productKey, mainLotKey, sublotKey, orUnknown, emptyProduct,
      emptyMainLot, initSubLot, addCodes, addCode, wrec1, wrec1b, wprodM,
      wmainM, wsubM]
    norm_num
  have h2 : aget wprodM.main_lots "25A01U01" = some wmainM := rfl
  have h3 : aget wmainM.sublots "25A01U01_2" = some wsubM := rfl
  obtain ⟨hne, hsum1, _, _, _, hmeta⟩ :=
    pivot_sublot_merge [wrec1, wrec1b] "T100" wprodM h1 "25A01U01" wmainM h2
      "25A01U01_2" wsubM h3
  have hhead : (matchingRecs [wrec1, wrec1b] "T100" "25A01U01"
      "25A01U01_2").head? = some wrec1 := by
    simp +decide [matchingRecs, List.filter, productKey, mainLotKey, sublotKey,
      orUnknown, wrec1, wrec1b]
  exact ⟨h1, hsum1, (hmeta wrec1 hhead).1, (hmeta wrec1 hhead).2.2.2.2.1⟩

/-- Membership after `addCode`. -/
theorem mem_addCode {x : String} (l : List String) (c : String) :
    x ∈ addCode l c ↔ x = c ∨ x ∈ l := by
  rw [addCode_eq_ite]
  by_cases h : c ∈ l
  · rw [if_pos h]
    constructor
    · exact Or.inr
    · rintro (rfl | hx)
      · exact h
      · exact hx
  · rw [if_neg h]
    simp [or_comm]

/-- `addCodes` never loses a member. -/
theorem addCodes_mem_mono {x : String} (pairs : List (String × ℚ)) :
    ∀ l : List String, x ∈ l → x ∈ addCodes l pairs := by
  induction pairs with
  | nil => exact fun l h => h
  | cons p ps ih =>
    intro l h
    exact ih (addCode l p.1) ((mem_addCode l p.1).mpr (Or.inr h))

/-- Every processed pair's code ends up in `addCodes`. -/
theorem mem_addCodes_of_pair {x : String} (pairs : List (String × ℚ)) :
    ∀ l : List String, x ∈ pairs.map Prod.fst → x ∈ addCodes l pairs := by
  induction pairs with
  | nil => intro l h; cases h
  | cons p ps ih =>
    intro l h
    rcases List.mem_cons.mp h with h1 | h2
    · exact addCodes_mem_mono ps (addCode l p.1)
        ((mem_addCode l p.1).mpr (Or.inl h1))
    · exact ih (addCode l p.1) h2

theorem nodup_addCodes (pairs : List (String × ℚ)) :
    ∀ l : List String, l.Nodup → (addCodes l pairs).Nodup := by
  induction pairs with
  | nil => exact fun l h => h
  | cons p ps ih => exact fun l h => ih (addCode l p.1) (addCode_nodup h p.1)

/-- Keys after `bumpAll` come from the original map or the pair list. -/
theorem keys_bumpAll_sub (pairs : List (String × ℚ)) :
    ∀ (d : List (String × ℚ)) (x : String),
      x ∈ (bumpAll d pairs).map Prod.fst →
      x ∈ d.map Prod.fst ∨ x ∈ pairs.map Prod.fst := by
  induction pairs with
  | nil => exact fun d x h => Or.inl h
  | cons p ps ih =>
    intro d x h
    have hstep : bumpAll d (p :: ps) = bumpAll (bump d p.1 p.2) ps := by
      simp [bumpAll]
    rw [hstep] at h
    rcases ih (bump d p.1 p.2) x h with h1 | h2
    · rw [map_fst_bump] at h1
      by_cases hm : p.1 ∈ d.map Prod.fst
      · rw [if_pos hm] at h1
        exact Or.inl h1
      · rw [if_neg hm] at h1
        rcases List.mem_append.mp h1 with h3 | h3
        · exact Or.inl h3
        · exact Or.inr (by simp [List.mem_singleton.mp h3])
    · exact Or.inr (by simp [h2])

theorem nodup_keys_bumpAll (pairs : List (String × ℚ)) :
    ∀ d : List (String × ℚ), (d.map Prod.fst).Nodup →
      ((bumpAll d pairs).map Prod.fst).Nodup := by
  induction pairs with
  | nil => exact fun d h => h
  | cons p ps ih =>
    intro d h
    have hstep : bumpAll d (p :: ps) = bumpAll (bump d p.1 p.2) ps := by
      simp [bumpAll]
    rw [hstep]
    refine ih _ ?_
    rw [map_fst_bump]
    by_cases hm : p.1 ∈ d.map Prod.fst
    · rw [if_pos hm]; exact h
    · rw [if_neg hm]; simp [List.nodup_append, h, hm]

theorem DefCov_mono {codes codes' : List String} {d : List (String × ℚ)}
    (h : DefCov codes d) (hmono : ∀ x ∈ codes, x ∈ codes') :
    DefCov codes' d :=
  ⟨h.1, fun ck hck => hmono ck (h.2 ck hck)⟩

theorem DefCov_nil (codes : List String) : DefCov codes [] := by
  refine ⟨by simp, by simp⟩

/-- Folding a pair list into a covered defect map stays covered once the
pair codes are added to the code set. -/
theorem DefCov_bumpAll {codes : List String} {d : List (String × ℚ)}
    (pairs : List (String × ℚ)) (h : DefCov codes d) :
    DefCov (addCodes codes pairs) (bumpAll d pairs) := by
  refine ⟨nodup_keys_bumpAll pairs d h.1, fun ck hck => ?_⟩
  rcases keys_bumpAll_sub pairs d ck hck with h1 | h2
  · exact addCodes_mem_mono pairs codes (h.2 ck h1)
  · exact mem_addCodes_of_pair pairs codes h2

/-- Entries after an `upsert` are old entries, or the mutation applied to
an old value or the default. -/
theorem mem_upsert_cases {α : Type} {d : List (String × α)} {k : String}
    {dflt : α} {g : α → α} {x : String × α} (hx : x ∈ upsert d k dflt g) :
    x ∈ d ∨ ∃ y, (y ∈ d.map Prod.snd ∨ y = dflt) ∧ x = (k, g y) := by
  induction d with
  | nil =>
    right
    refine ⟨dflt, Or.inr rfl, ?_⟩
    simpa [upsert] using List.mem_singleton.mp hx
  | cons hd tl ih =>
    obtain ⟨k0, v0⟩ := hd
    by_cases h0 : k0 = k
    · subst h0
      rw [upsert, if_pos rfl] at hx
      rcases List.mem_cons.mp hx with h1 | h1
      · exact Or.inr ⟨v0, Or.inl (by simp), h1⟩
      · exact Or.inl (List.mem_cons.mpr (Or.inr h1))
    · rw [upsert, if_neg h0] at hx
      rcases List.mem_cons.mp hx with h1 | h1
      · exact Or.inl (List.mem_cons.mpr (Or.inl h1))
      · rcases ih h1 with h2 | ⟨y, hy, hxy⟩
        · exact Or.inl (List.mem_cons.mpr (Or.inr h2))
        · exact Or.inr ⟨y, by
            rcases hy with hy1 | hy2
            · exact Or.inl (by simp [hy1])
            · exact Or.inr hy2, hxy⟩

/-- One loop iteration preserves the code-coverage invariant. -/
theorem codesCovered_step (st : PivotState) (r : Record)
    (h : CodesCovered st) : CodesCovered (processRecord st r) := by
  have hcodes : (processRecord st r).codes
      = addCodes st.codes (parsedPairs r.defect_details) := rfl
  intro pp hpp
  have hpp' : pp ∈ upsert st.groups (productKey r) emptyProduct (addToProduct r) :=
    hpp
  have hmono : ∀ x ∈ st.codes, x ∈ (processRecord st r).codes := by
    rw [hcodes]
    exact fun x hx => addCodes_mem_mono _ _ hx
  rcases mem_upsert_cases hpp' with hold | ⟨y, hy, hpe⟩
  · obtain ⟨hp1, hp2⟩ := h pp hold
    refine ⟨DefCov_mono hp1 hmono, fun mm hmm => ?_⟩
    obtain ⟨hm1, hm2⟩ := hp2 mm hmm
    exact ⟨DefCov_mono hm1 hmono, fun ss hss =>
      DefCov_mono (hm2 ss hss) hmono⟩
  · have hyCov : DefCov st.codes y.defects ∧
        ∀ mm ∈ y.main_lots, DefCov st.codes mm.2.defects ∧
          ∀ ss ∈ mm.2.sublots, DefCov st.codes ss.2.defects := by
      rcases hy with hy1 | hy2
      · obtain ⟨pp0, hpp0, hsnd⟩ := List.mem_map.mp hy1
        obtain ⟨ha, hb⟩ := h pp0 hpp0
        rw [hsnd] at ha hb
        exact ⟨ha, hb⟩
      · subst hy2
        exact ⟨DefCov_nil _, fun mm hmm => by simp [emptyProduct] at hmm⟩
    subst hpe
    rw [hcodes]
    refine ⟨DefCov_bumpAll _ hyCov.1, fun mm hmm => ?_⟩
    have hmm' : mm ∈ upsert y.main_lots (mainLotKey r) emptyMainLot
        (addToMainLot r) := hmm
    rcases mem_upsert_cases hmm' with hold | ⟨m, hm, hme⟩
    · obtain ⟨hm1, hm2⟩ := hyCov.2 mm hold
      exact ⟨DefCov_mono hm1 (fun x hx => addCodes_mem_mono _ _ hx),
        fun ss hss => DefCov_mono (hm2 ss hss)
          (fun x hx => addCodes_mem_mono _ _ hx)⟩
    · have hmCov : DefCov st.codes m.defects ∧
          ∀ ss ∈ m.sublots, DefCov st.codes ss.2.defects := by
        rcases hm with hm1 | hm2
        · obtain ⟨mm0, hmm0, hsnd⟩ := List.mem_map.mp hm1
          obtain ⟨ha, hb⟩ := hyCov.2 mm0 hmm0
          rw [hsnd] at ha hb
          exact ⟨ha, hb⟩
        · subst hm2
          exact ⟨DefCov_nil _, fun ss hss => by simp [emptyMainLot] at hss⟩
      subst hme
      refine ⟨DefCov_bumpAll _ hmCov.1, fun ss hss => ?_⟩
      have hss' : ss ∈ upsert m.sublots (sublotKey r) (initSubLot r)
          (addToSubLot r) := hss
      rcases mem_upsert_cases hss' with hold | ⟨s, hs, hse⟩
      · exact DefCov_mono (hmCov.2 ss hold)
          (fun x hx => addCodes_mem_mono _ _ hx)
      · have hsCov : DefCov st.codes s.defects := by
          rcases hs with hs1 | hs2
          · obtain ⟨ss0, hss0, hsnd⟩ := List.mem_map.mp hs1
            have := hmCov.2 ss0 hss0
            rw [hsnd] at this
            exact this
          · subst hs2
            exact DefCov_nil _
        subst hse
        exact DefCov_bumpAll _ hsCov

theorem codesCovered_foldl (data : List Record) :
    ∀ st : PivotState, CodesCovered st →
      CodesCovered (data.foldl processRecord st) := by
  induction data with
  | nil => exact fun st h => h
  | cons r rest ih => exact fun st h => ih _ (codesCovered_step st r h)

theorem codes_nodup_foldl (data : List Record) :
    ∀ st : PivotState, st.codes.Nodup →
      ((data.foldl processRecord st).codes).Nodup := by
  induction data with
  | nil => exact fun st h => h
  | cons r rest ih =>
    intro st h
    exact ih _ (nodup_addCodes (parsedPairs r.defect_details) st.codes h)

theorem insertSorted_nodup (x : String) (l : List String)
    (hl : l.Nodup) (hx : x ∉ l) : (insertSorted x l).Nodup := by
  induction l with
  | nil => simp [insertSorted]
  | cons y tl ih =>
    by_cases hle : x ≤ y
    · rw [insertSorted, if_pos hle]
      exact List.nodup_cons.mpr ⟨hx, hl⟩
    · rw [insertSorted, if_neg hle]
      have hy : y ∉ insertSorted x tl := by
        rw [mem_insertSorted]
        rintro (rfl | hyt)
        · exact hx (by simp)
        · exact (List.nodup_cons.mp hl).1 hyt
      exact List.nodup_cons.mpr ⟨hy,
        ih (List.nodup_cons.mp hl).2 (fun hxm => hx (by simp [hxm]))⟩

theorem sortStrings_nodup (l : List String) (h : l.Nodup) :
    (sortStrings l).Nodup := by
  induction l with
  | nil => simp [sortStrings]
  | cons x tl ih =>
    have hstep : sortStrings (x :: tl) = insertSorted x (sortStrings tl) := rfl
    rw [hstep]
    refine insertSorted_nodup x (sortStrings tl)
      (ih (List.nodup_cons.mp h).2) ?_
    rw [mem_sortStrings]
    exact (List.nodup_cons.mp h).1

/-- C4 counterexample: with `[wrec1, wrec3]` the code `"SD"` is observed in
the input (it is in `defect_columns`), yet the emitted product row for
`"T100"` does not carry an `"SD"` entry at all — the key is absent, not
present with value 0. -/
theorem pivot_row_defect_columns_refuted :
    "SD" ∈ (get_product_grouped_pivot_data [wrec1, wrec3]).defect_columns ∧
    productRow "T100" wprod1
      ∈ (get_product_grouped_pivot_data [wrec1, wrec3]).rows ∧
    aget (productRow "T100" wprod1).defects "SD" = none := by
  have hn1 : normalize_defect_type (some "Bend") = "BD" := by decide
  have hn2 : normalize_defect_type (some "Stain") = "SD" := by decide
  refine ⟨?_, ?_, rfl⟩
  · simp +decide [hn1, hn2, get_product_grouped_pivot_data, buildState,
      processRecord, addToProduct, addToMainLot, addToSubLot, upsert, bumpAll,
      bump, parsedPairs, chunkPairs, chunkPair, pySplit, splitOnSepFuel,
      flt_str, pyFloatOfStr, pyFloatCore, pyStrip, parseSign, parseMant,
      splitOnCharP, parseUDec, isDigitCh, digitsToNat, productKey, mainLotKey,
      sublotKey, orUnknown, emptyProduct, emptyMainLot, initSubLot, addCodes,
      addCode, sortStrings, insertSorted, wrec1, wrec3]
  · simp +decide [hn1, hn2, get_product_grouped_pivot_data, buildState,
      processRecord, addToProduct, addToMainLot, addToSubLot, upsert, bumpAll,
      bump, flattenRows, parsedPairs, chunkPairs, chunkPair, pySplit,
      splitOnSepFuel, flt_str, pyFloatOfStr, pyFloatCore, pyStrip, parseSign,
      parseMant, splitOnCharP, parseUDec, isDigitCh, digitsToNat, productKey,
      mainLotKey, sublotKey, orUnknown, emptyProduct, emptyMainLot, initSubLot,
      addCodes, addCode, wrec1, wrec3, wprod1, wmain1, wsub1]

/-- C4 (amended): `defect_columns` lists each distinct observed code once;
every row carries one entry per defect code recorded at its own node (each
at most once, and every such code is in `defect_columns`); a code observed
only at other nodes is absent from the row rather than present with 0. -/
theorem pivot_row_defects_amended (data : List Record) :
    (get_product_grouped_pivot_data data).defect_columns.Nodup ∧
    ∀ row ∈ (get_product_grouped_pivot_data data).rows,
      (row.defects.map Prod.fst).Nodup ∧
      ∀ ck ∈ row.defects.map Prod.fst,
        ck ∈ (get_product_grouped_pivot_data data).defect_columns := by
  have hcov : CodesCovered (buildState data) :=
    codesCovered_foldl data ⟨[], []⟩ (fun pp hpp => by cases hpp)
  have hnd : ((buildState data).codes).Nodup :=
    codes_nodup_foldl data ⟨[], []⟩ (by simp)
  have hcols : (get_product_grouped_pivot_data data).defect_columns
      = sortStrings (buildState data).codes := rfl
  refine ⟨by rw [hcols]; exact sortStrings_nodup _ hnd, ?_⟩
  intro row hrow
  have hrow' : row ∈ flattenRows (buildState data).groups := hrow
  rw [flattenRows, List.mem_flatMap] at hrow'
  obtain ⟨pp, hpp, hmem⟩ := hrow'
  have hppCov := hcov pp hpp
  rcases List.mem_cons.mp hmem with hp | hmem2
  · subst hp
    refine ⟨hppCov.1.1, fun ck hck => ?_⟩
    rw [hcols, mem_sortStrings]
    exact hppCov.1.2 ck hck
  · rw [List.mem_flatMap] at hmem2
    obtain ⟨mm, hmm, hmem3⟩ := hmem2
    have hmmCov := hppCov.2 mm hmm
    rcases List.mem_cons.mp hmem3 with hm | hmem4
    · subst hm
      refine ⟨hmmCov.1.1, fun ck hck => ?_⟩
      rw [hcols, mem_sortStrings]
      exact hmmCov.1.2 ck hck
    · rw [List.mem_map] at hmem4
      obtain ⟨ss, hss, hs⟩ := hmem4
      subst hs
      have hssCov := hmmCov.2 ss hss
      refine ⟨hssCov.1, fun ck hck => ?_⟩
      rw [hcols, mem_sortStrings]
      exact hssCov.2 ck hck

/-- Witness for `pivot_row_defects_amended` on `[wrec1]`: the product row
carries the one code `"BD"` recorded at it, and `"BD"` is a defect
column. -/
theorem pivot_row_defects_amended_witness :
    productRow "T100" wprod1 ∈ (get_product_grouped_pivot_data [wrec1]).rows ∧
    ((productRow "T100" wprod1).defects.map Prod.fst).Nodup ∧
    "BD" ∈ (get_product_grouped_pivot_data [wrec1]).defect_columns := by
  have hn1 : normalize_defect_type (some "Bend") = "BD" := by decide
  have hmem : productRow "T100" wprod1
      ∈ (get_product_grouped_pivot_data [wrec1]).rows := by
    simp +decide [hn1, get_product_grouped_pivot_data, buildState,
      processRecord, addToProduct, addToMainLot, addToSubLot, upsert, bumpAll,
      bump, flattenRows, parsedPairs, chunkPairs, chunkPair, pySplit,
      splitOnSepFuel, flt_str, pyFloatOfStr, pyFloatCore, pyStrip, parseSign,
      parseMant, splitOnCharP, parseUDec, isDigitCh, digitsToNat, productKey,
      mainLotKey, sublotKey, orUnknown, emptyProduct, emptyMainLot, initSubLot,
      addCodes, addCode, wrec1, wprod1, wmain1, wsub1]
  have h := (pivot_row_defects_amended [wrec1]).2 (productRow "T100" wprod1) hmem
  refine ⟨hmem, h.1, h.2 "BD" ?_⟩
  show "BD" ∈ (wprod1.defects.map Prod.fst)
  simp [wprod1]

/-- Splitting at the first `d` of `l ++ d :: r` when `l` is `d`-free. -/
theorem takeWhile_dropWhile_ne_append {d : Char} {l r : List Char}
    (h : d ∉ l) :
    (l ++ d :: r).takeWhile (· ≠ d) = l ∧
    (l ++ d :: r).dropWhile (· ≠ d) = d :: r := by
  induction l with
  | nil =>
    constructor
    · exact List.takeWhile_cons_of_neg (by simp)
    · exact List.dropWhile_cons_of_neg (by simp)
  | cons c t ih =>
    have hcd : c ≠ d := fun hcd => h (by simp [hcd])
    have ht : d ∉ t := fun hdt => h (by simp [hdt])
    obtain ⟨ih1, ih2⟩ := ih ht
    constructor
    · rw [List.cons_append, List.takeWhile_cons_of_pos (by simp [hcd]), ih1]
    · rw [List.cons_append, List.dropWhile_cons_of_pos (by simp [hcd]), ih2]

theorem pivot_total_inspected_sum (data : List Record) :
    (get_product_grouped_pivot_data data).summary_total_inspected
      = (data.map (fun r => r.inspected_qty)).sum := by
  show sumBy (buildState data).groups (fun p => p.total_inspected) = _
  rw [show buildState data = data.foldl processRecord ⟨[], []⟩ from rfl,
    sumBy_groups_foldl (fun p => p.total_inspected) (fun r => r.inspected_qty)
      rfl (fun r p => rfl)]
  simp [sumBy]

theorem pivot_total_rejected_sum (data : List Record) :
    (get_product_grouped_pivot_data data).summary_total_rejected
      = (data.map (fun r => r.rejected_qty)).sum := by
  show sumBy (buildState data).groups (fun p => p.total_rejected) = _
  rw [show buildState data = data.foldl processRecord ⟨[], []⟩ from rfl,
    sumBy_groups_foldl (fun p => p.total_rejected) (fun r => r.rejected_qty)
      rfl (fun r p => rfl)]
  simp [sumBy]

/-- C8 counterexample: the claim says a defect pair with a non-numeric
quantity is "skipped individually" and "contributes nothing to any node's
defect map".  In the code, `frappe.utils.flt` swallows the parse failure
and returns 0 (the `except: continue` guard is unreachable), so the pair
`"Stain:abc"` is processed with quantity 0: it adds `"SD"` to
`defect_columns` and puts a `("SD", 0)` entry into every node's defect map
instead of leaving them empty. -/
theorem malformed_defect_pair_refuted :
    flt_str "abc" = 0 ∧
    parsedPairs (some "Stain:abc") = [("SD", 0)] ∧
    (get_product_grouped_pivot_data [wrecBad]).defect_columns = ["SD"] ∧
    aget (buildState [wrecBad]).groups "P3" = some wprodBad ∧
    wprodBad.defects = [("SD", 0)] ∧ wprodBad.defects ≠ [] := by
  have hn2 : normalize_defect_type (some "Stain") = "SD" := by decide
  refine ⟨?_, ?_, ?_, ?_, rfl, by simp [wprodBad]⟩
  · simp +decide [flt_str, pyFloatOfStr, pyFloatCore, pyStrip, parseSign,
      parseMant, splitOnCharP, parseUDec, isDigitCh, digitsToNat]
  · simp +decide [hn2, parsedPairs, chunkPairs, chunkPair, pySplit,
      splitOnSepFuel, flt_str, pyFloatOfStr, pyFloatCore, pyStrip, parseSign,
      parseMant, splitOnCharP, parseUDec, isDigitCh, digitsToNat]
  · simp +decide [hn2, get_product_grouped_pivot_data, buildState,
      processRecord, addToProduct, addToMainLot, addToSubLot, upsert, bumpAll,
      bump, parsedPairs, chunkPairs, chunkPair, pySplit, splitOnSepFuel,
      flt_str, pyFloatOfStr, pyFloatCore, pyStrip, parseSign, parseMant,
      splitOnCharP, parseUDec, isDigitCh, digitsToNat, productKey, mainLotKey,
      sublotKey, orUnknown, emptyProduct, emptyMainLot, initSubLot, addCodes,
      addCode, sortStrings, insertSorted, wrecBad]
  · simp +decide [hn2, buildState, processRecord, addToProduct, addToMainLot,
      addToSubLot, upsert, bumpAll, bump, aget, parsedPairs, chunkPairs,
      chunkPair, pySplit, splitOnSepFuel, flt_str, pyFloatOfStr, pyFloatCore,
      pyStrip, parseSign, parseMant, splitOnCharP, parseUDec, isDigitCh,
      digitsToNat, productKey, mainLotKey, sublotKey, orUnknown, emptyProduct,
      emptyMainLot, initSubLot, addCodes, addCode, wrecBad, wprodBad, wmainBad,
      wsubBad]

/-- C8 (amended): a `defect_details` chunk without `':'` is skipped
entirely (removing it changes nothing, the other chunks are still
processed); a chunk `t:q` with a non-numeric quantity `q` is processed with
quantity 0 — its normalized code gains a 0-valued entry, which changes no
defect count; and the record quantity/cost totals never depend on
`defect_details`, so aggregation always completes for the rest of the
batch. -/
theorem malformed_defect_amended :
    (∀ (pre post : List String) (chunk : String), ':' ∉ chunk.data →
      chunkPairs (pre ++ chunk :: post) = chunkPairs (pre ++ post)) ∧
    (∀ t q : String, ':' ∉ t.data →
      chunkPair (t ++ ":" ++ q)
        = some (normalize_defect_type (some t), flt_str q)) ∧
    (∀ (c t : String) (ps1 ps2 : List (String × ℚ)),
      pairContrib (ps1 ++ (t, 0) :: ps2) c = pairContrib (ps1 ++ ps2) c) ∧
    (∀ data1 data2 : List Record,
      data1.map eraseDetails = data2.map eraseDetails →
      (get_product_grouped_pivot_data data1).summary_total_inspected
        = (get_product_grouped_pivot_data data2).summary_total_inspected ∧
      (get_product_grouped_pivot_data data1).summary_total_rejected
        = (get_product_grouped_pivot_data data2).summary_total_rejected) := by
  refine ⟨?_, ?_, ?_, ?_⟩
  · intro pre post chunk h
    have hnone : chunkPair chunk = none := by
      simp [chunkPair, h]
    simp [chunkPairs, List.filterMap_append, List.filterMap_cons, hnone]
  · intro t q h
    have hdata : (t ++ ":" ++ q).data = t.data ++ ':' :: q.data := by
      rw [String.data_append, String.data_append]
      simp
    have hcont : (t ++ ":" ++ q).data.contains ':' = true := by
      rw [hdata]
      exact List.elem_eq_true_of_mem (by simp)
    obtain ⟨h1, h2⟩ := takeWhile_dropWhile_ne_append (r := q.data) h
    rw [chunkPair, if_pos hcont, hdata, h1, h2]
    rfl
  · intro c t ps1 ps2
    simp [pairContrib]
  · intro data1 data2 hmap
    have hkey : ∀ (f : Record → ℚ), (∀ r, f (eraseDetails r) = f r) →
        data1.map f = data2.map f := by
      intro f hf
      have h1 : ∀ dl : List Record, dl.map f = (dl.map eraseDetails).map f := by
        intro dl
        rw [List.map_map]
        refine List.map_congr_left ?_
        intro r _
        exact (hf r).symm
      rw [h1 data1, h1 data2, hmap]
    constructor
    · rw [pivot_total_inspected_sum, pivot_total_inspected_sum]
      exact congrArg List.sum (hkey (fun r => r.inspected_qty) (fun r => rfl))
    · rw [pivot_total_rejected_sum, pivot_total_rejected_sum]
      exact congrArg List.sum (hkey (fun r => r.rejected_qty) (fun r => rfl))

/-- Witness for `malformed_defect_amended` at concrete malformed pairs:
the colon-less chunk `"XYZ"` vanishes, `"Stain:abc"` becomes `(SD, 0)`,
a 0-valued pair changes no count, and erasing `wrecBad`'s details leaves
the summary unchanged. -/
theorem malformed_defect_amended_witness :
    chunkPairs (["Bend:5"] ++ "XYZ" :: []) = chunkPairs (["Bend:5"] ++ []) ∧
    chunkPair ("Stain" ++ ":" ++ "abc")
      = some (normalize_defect_type (some "Stain"), flt_str "abc") ∧
    pairContrib ([("BD", 5)] ++ ("SD", 0) :: []) "SD"
      = pairContrib ([("BD", 5)] ++ []) "SD" ∧
    (get_product_grouped_pivot_data [wrecBad]).summary_total_inspected
      = (get_product_grouped_pivot_data [eraseDetails wrecBad]).summary_total_inspected := by
  refine ⟨malformed_defect_amended.1 ["Bend:5"] [] "XYZ" (by decide),
    malformed_defect_amended.2.1 "Stain" "abc" (by decide),
    malformed_defect_amended.2.2.1 "SD" "SD" [("BD", 5)] [],
    (malformed_defect_amended.2.2.2 [wrecBad] [eraseDetails wrecBad] rfl).1⟩
